import Mathlib

/-!
Verification development for the Cryptify incremental feature pipeline and
multi-horizon prediction engine.

The definitions in the first part of this file are a shallow embedding of
the Python sources `scripts/data_collector.py`, `scripts/predictor.py` and
`scripts/cleanup_predictions.py`:

* float values are modelled by `ℚ`; a float NaN is modelled by `none` in
  `Option ℚ` (pandas `dropna` removes exactly the NaN-bearing rows, and a
  float operation produces NaN from finite inputs only at `0 / 0`,
  `log` of a negative number, or arithmetic on a NaN);
* float infinities are kept as ordinary (wrong-valued but present) values,
  matching the fact that `dropna` does not remove `inf`;
* transcendental primitives (`np.log`, `np.sqrt` inside `std`, `np.sin`,
  `np.cos`) are opaque parameters collected in `RealOps`; every theorem
  about values quantifies over them;
* DataFrames are modelled as structures of columns, each column a function
  from row position to an (optional) rational.
-/

/-- Opaque real-valued primitives used by the pipeline.  `lg` stands for
`np.log`, `sqrtQ` for the square root inside `pandas` `std`, and
`sin2pi x` / `cos2pi x` stand for `sin(2*pi*x)` / `cos(2*pi*x)` used by the
cyclical time encodings. -/
structure RealOps where
  lg : ℚ → ℚ
  sqrtQ : ℚ → ℚ
  sin2pi : ℚ → ℚ
  cos2pi : ℚ → ℚ

/-- Identity instantiation of `RealOps`, used to evaluate the pipeline on
concrete frames (the structural facts proved below do not depend on the
values of the opaque primitives). -/
def idOps : RealOps := ⟨id, id, id, id⟩

/-- Float division producing NaN exactly at `0 / 0` (a nonzero numerator
over zero gives an infinity, which is a present value for `dropna`; we
model it by the rational `a / 0 = 0`). -/
def fdivQ (a b : ℚ) : Option ℚ :=
  if a = 0 ∧ b = 0 then none else some (a / b)

/-- Float `np.log`, NaN on negative arguments (`log 0 = -inf` is a present
value). -/
def flogQ (ops : RealOps) (x : ℚ) : Option ℚ :=
  if x < 0 then none else some (ops.lg x)

/-- Mean of a list of rationals (`pandas` mean of a full window). -/
def listMean (l : List ℚ) : ℚ := l.sum / (l.length : ℚ)

/-- Sample variance with the `pandas` default `ddof = 1`
(`std = sqrt` of this). -/
def listSVar (l : List ℚ) : ℚ :=
  ((l.map (fun x => (x - listMean l) ^ 2)).sum) / ((l.length : ℚ) - 1)

/-- The merged data frame produced by `merge_all_data` as consumed by
`create_advanced_features`: OHLCV columns are always present (the OHLCV
source is the driving axis of the join), `SP500_Close` has been
forward-filled and zero-filled so it always holds a number, while
`Open_Interest` (when the column exists, `hasOI`) is left-joined without
filling and may hold NaN.  `hod`, `dow`, `mon` are the hour-of-day,
day-of-week and month fields of the row's timestamp. -/
structure MergedBars where
  n : ℕ
  ts : ℕ → ℕ
  op : ℕ → ℚ
  hi : ℕ → ℚ
  lo : ℕ → ℚ
  cl : ℕ → ℚ
  vol : ℕ → ℚ
  sp : ℕ → ℚ
  hasOI : Bool
  oi : ℕ → Option ℚ
  hod : ℕ → ℕ
  dow : ℕ → ℕ
  mon : ℕ → ℕ

namespace Features

/-- `series.shift(1)` applied to a total column: NaN at row 0. -/
def shift1 (x : ℕ → ℚ) : ℕ → Option ℚ :=
  fun i => if i = 0 then none else some (x (i - 1))

/-- `np.log(series / series.shift(periods))` with `periods = 1`
(`calculate_log_return` in `data_collector.py`). -/
def logReturnOf (ops : RealOps) (x : ℕ → ℚ) (i : ℕ) : Option ℚ :=
  if i = 0 then none else (fdivQ (x i) (x (i - 1))).bind (flogQ ops)

/-- Column `log_return`. -/
def logRetCol (ops : RealOps) (df : MergedBars) : ℕ → Option ℚ :=
  logReturnOf ops df.cl

/-- Column `SP500_log_return`. -/
def spLogRetCol (ops : RealOps) (df : MergedBars) : ℕ → Option ℚ :=
  logReturnOf ops df.sp

/-- Column `price_range = (High - Low) / Close.shift(1)`. -/
def priceRangeCol (df : MergedBars) (i : ℕ) : Option ℚ :=
  if i = 0 then none else fdivQ (df.hi i - df.lo i) (df.cl (i - 1))

/-- Column `price_change = (Close - Open) / Open`. -/
def priceChangeCol (df : MergedBars) (i : ℕ) : Option ℚ :=
  fdivQ (df.cl i - df.op i) (df.op i)

/-- Column `high_to_prev_close = (High - Close.shift(1)) / Close.shift(1)`. -/
def hiPrevCol (df : MergedBars) (i : ℕ) : Option ℚ :=
  if i = 0 then none else fdivQ (df.hi i - df.cl (i - 1)) (df.cl (i - 1))

/-- Column `low_to_prev_close = (Low - Close.shift(1)) / Close.shift(1)`. -/
def loPrevCol (df : MergedBars) (i : ℕ) : Option ℚ :=
  if i = 0 then none else fdivQ (df.lo i - df.cl (i - 1)) (df.cl (i - 1))

/-- The trailing window of width `w` ending at row `i` of a column
(positions `i - w + 1 .. i`), as seen by `pandas` `rolling(window = w)`. -/
def windowAt (x : ℕ → Option ℚ) (i w : ℕ) : List (Option ℚ) :=
  (List.range w).map (fun j => x (i + 1 - w + j))

/-- `pandas` `rolling(window = w)` aggregation with the default
`min_periods = w`: defined only when the full window is inside the series
and every entry in it is non-NaN. -/
def rollingAgg (w : ℕ) (f : List ℚ → ℚ) (x : ℕ → Option ℚ) (i : ℕ) :
    Option ℚ :=
  if w ≤ i + 1 then
    let win := windowAt x i w
    if win.all Option.isSome then some (f (win.filterMap id)) else none
  else none

/-- Column `volatility_w = log_return.rolling(w).std()`. -/
def volatilityCol (ops : RealOps) (df : MergedBars) (w : ℕ) : ℕ → Option ℚ :=
  rollingAgg w (fun l => ops.sqrtQ (listSVar l)) (logRetCol ops df)

/-- Column `volume_ma_w = Volume.rolling(w).mean()`. -/
def volumeMaCol (df : MergedBars) (w : ℕ) : ℕ → Option ℚ :=
  rollingAgg w listMean (fun i => some (df.vol i))

/-- Column `volume_zscore = (Volume - Volume.rolling(100).mean()) /
Volume.rolling(100).std()`.  The float quotient is NaN exactly when the
rolling std is zero, i.e. when the sample variance of the window is zero
(then the numerator is also zero, giving `0.0 / 0.0`). -/
def volumeZCol (ops : RealOps) (df : MergedBars) (i : ℕ) : Option ℚ :=
  if 100 ≤ i + 1 then
    let win := (List.range 100).map (fun j => df.vol (i + 1 - 100 + j))
    if listSVar win = 0 then none
    else some ((df.vol i - listMean win) / ops.sqrtQ (listSVar win))
  else none

/-- One step of `pandas` `ewm(span, adjust = False).mean()`: the output at
position 0 is the input there; afterwards the state is seeded by the first
non-NaN input and then follows `y = (1 - k) * y_prev + k * x` (a NaN
input carries the previous state forward; the pipeline never produces
interior NaNs after the seed). -/
def ewmRec (k : ℚ) (x : ℕ → Option ℚ) : ℕ → Option ℚ
  | 0 => x 0
  | i + 1 =>
    match ewmRec k x i, x (i + 1) with
    | none, v => v
    | some p, none => some p
    | some p, some v => some ((1 - k) * p + k * v)

/-- The SMA seed that `pandas_ta.ema` (default `sma = True`) writes at
position `length - 1`: the mean of the non-NaN entries among the first
`length` inputs. -/
def emaSeed (length : ℕ) (x : ℕ → Option ℚ) : Option ℚ :=
  let vals := (List.range length).filterMap x
  if vals.isEmpty then none else some (listMean vals)

/-- The modified input series that `pandas_ta.ema` feeds to `ewm`:
NaN before position `length - 1`, the SMA seed there, and the raw input
afterwards. -/
def emaInput (length : ℕ) (x : ℕ → Option ℚ) (i : ℕ) : Option ℚ :=
  if i < length - 1 then none
  else if i = length - 1 then emaSeed length x
  else x i

/-- `pandas_ta.ema(x, length)` (defaults `sma = True`, `adjust = False`). -/
def emaPT (length : ℕ) (x : ℕ → Option ℚ) : ℕ → Option ℚ :=
  ewmRec (2 / ((length : ℚ) + 1)) (emaInput length x)

/-- Pointwise subtraction of two NaN-able series. -/
def osub (a b : Option ℚ) : Option ℚ :=
  match a, b with
  | some x, some y => some (x - y)
  | _, _ => none

/-- The MACD line of `pandas_ta.macd(x, 12, 26, 9)`:
`ema(x, 12) - ema(x, 26)`. -/
def macdLine (x : ℕ → Option ℚ) (i : ℕ) : Option ℚ :=
  osub (emaPT 12 x i) (emaPT 26 x i)

/-- `Series.first_valid_index()` over the first `n` positions. -/
def firstValid (n : ℕ) (x : ℕ → Option ℚ) : Option ℕ :=
  (List.range n).find? (fun i => (x i).isSome)

/-- The MACD signal line: `pandas_ta.ema` of the MACD line sliced from its
first valid index, with length 9, reindexed to the original positions
(`n` is the series length, needed to locate the first valid index). -/
def macdSignal (n : ℕ) (x : ℕ → Option ℚ) (i : ℕ) : Option ℚ :=
  match firstValid n (macdLine x) with
  | none => none
  | some f =>
    if i < f then none else emaPT 9 (fun j => macdLine x (f + j)) (i - f)

/-- The MACD histogram: MACD line minus signal line. -/
def macdHist (n : ℕ) (x : ℕ → Option ℚ) (i : ℕ) : Option ℚ :=
  osub (macdLine x i) (macdSignal n x i)

/-- `Series.diff(1)`: difference with the previous entry, NaN when either
entry is NaN or at position 0. -/
def diffCol (x : ℕ → Option ℚ) (i : ℕ) : Option ℚ :=
  if i = 0 then none
  else
    match x i, x (i - 1) with
    | some a, some b => some (a - b)
    | _, _ => none

/-- Running weighted numerator / denominator / observation count of
`pandas` `ewm(alpha, adjust = True, ignore_na = False).mean()`: at each
step the old weights decay by `1 - alpha`, and a non-NaN input joins with
weight 1. -/
def rmaAux (alpha : ℚ) (x : ℕ → Option ℚ) : ℕ → ℚ × ℚ × ℕ
  | 0 =>
    match x 0 with
    | some v => (v, 1, 1)
    | none => (0, 0, 0)
  | i + 1 =>
    let s := rmaAux alpha x i
    match x (i + 1) with
    | some v => ((1 - alpha) * s.1 + v, (1 - alpha) * s.2.1 + 1, s.2.2 + 1)
    | none => ((1 - alpha) * s.1, (1 - alpha) * s.2.1, s.2.2)

/-- `pandas_ta.rma(x, length)`: `ewm(alpha = 1/length,
min_periods = length).mean()` — NaN until `length` non-NaN observations
have been seen, the weighted average afterwards. -/
def rmaPT (length : ℕ) (x : ℕ → Option ℚ) (i : ℕ) : Option ℚ :=
  let s := rmaAux (1 / (length : ℚ)) x i
  if s.2.2 < length then none else some (s.1 / s.2.1)

/-- `pandas_ta.rsi(x, 14)`: RMA of the clipped positive / negative diffs,
then `100 * pos_avg / (pos_avg + |neg_avg|)` (float NaN exactly at
`0 / 0`). -/
def rsiCol14 (x : ℕ → Option ℚ) (i : ℕ) : Option ℚ :=
  match rmaPT 14 (fun j => (diffCol x j).map (fun d => max d 0)) i,
      rmaPT 14 (fun j => (diffCol x j).map (fun d => min d 0)) i with
  | some pa, some na => fdivQ (100 * pa) (pa + |na|)
  | _, _ => none

/-- `pandas_ta.true_range(high, low, close, drift = 1)`: the row-wise
skip-NaN maximum of `|high - low|`, `|high - prev_close|`,
`|low - prev_close|`, with position 0 forced to NaN. -/
def trueRangeCol (hi lo cl : ℕ → Option ℚ) (i : ℕ) : Option ℚ :=
  if i = 0 then none
  else
    let pc := cl (i - 1)
    let c1 :=
      match hi i, lo i with
      | some h, some l => some |h - l|
      | _, _ => none
    let c2 :=
      match hi i, pc with
      | some h, some p => some |h - p|
      | _, _ => none
    let c3 :=
      match lo i, pc with
      | some l, some p => some |l - p|
      | _, _ => none
    ([c1, c2, c3].filterMap id).max?

/-- `pandas_ta.atr(high, low, close, length = 14)` with the default
`mamode = "rma"`. -/
def atrCol14 (hi lo cl : ℕ → Option ℚ) : ℕ → Option ℚ :=
  rmaPT 14 (trueRangeCol hi lo cl)

/-- The shifted close column `prev_Close = Close.shift(1)` that the
pipeline feeds to the technical indicators. -/
def prevClCol (df : MergedBars) : ℕ → Option ℚ :=
  shift1 df.cl

/-- Column `MACD_safe` (`macd_data.iloc[:, 0]`, the MACD line computed on
`prev_Close`). -/
def macdCol (df : MergedBars) : ℕ → Option ℚ :=
  macdLine (prevClCol df)

/-- Column `MACDs_safe` (`macd_data.iloc[:, 1]`; in the `pandas_ta` column
order `[MACD, MACDh, MACDs]` position 1 is the histogram). -/
def macdSCol (df : MergedBars) : ℕ → Option ℚ :=
  macdHist df.n (prevClCol df)

/-- Column `MACDh_safe` (`macd_data.iloc[:, 2]`; in the `pandas_ta` column
order position 2 is the signal line). -/
def macdHCol (df : MergedBars) : ℕ → Option ℚ :=
  macdSignal df.n (prevClCol df)

/-- Column `RSI_safe`: RSI of `prev_Close`. -/
def rsiCol (df : MergedBars) : ℕ → Option ℚ :=
  rsiCol14 (prevClCol df)

/-- Column `ATR_safe_norm`: ATR of the shifted high / low / close, divided
by `prev_Close`. -/
def atrNormCol (df : MergedBars) (i : ℕ) : Option ℚ :=
  match atrCol14 (shift1 df.hi) (shift1 df.lo) (shift1 df.cl) i,
      prevClCol df i with
  | some a, some p => fdivQ a p
  | _, _ => none

/-- `pandas_ta.macd` returns `None` (so the MACD columns are not added to
the frame) when the series is shorter than `max(fast, slow, signal) = 26`. -/
def hasMACD (df : MergedBars) : Bool := 26 ≤ df.n

/-- `pandas_ta.rsi` returns `None` when the series is shorter than 14. -/
def hasRSI (df : MergedBars) : Bool := 14 ≤ df.n

/-- `pandas_ta.atr` returns `None` when the series is shorter than 14. -/
def hasATR (df : MergedBars) : Bool := 14 ≤ df.n

end Features

/-- One row of the feature table produced by `create_advanced_features`
after the final cleanup: the raw OHLCV and SP500 columns are dropped
except the BTC close (kept under the alias column `Close`), and
`Open_Interest` survives untouched when its column exists.  NaN-able
columns are `Option ℚ`; the cyclical time encodings are always numbers.
When an indicator column is absent from the frame (series too short for
`pandas_ta`) the corresponding field is `none` but is not consulted by the
NaN-drop. -/
structure FeatureRow where
  ts : ℕ
  close : ℚ
  oi : Option ℚ
  logRet : Option ℚ
  spLogRet : Option ℚ
  priceRange : Option ℚ
  priceChange : Option ℚ
  hiPrev : Option ℚ
  loPrev : Option ℚ
  vola5 : Option ℚ
  vola14 : Option ℚ
  vola21 : Option ℚ
  volMa5 : Option ℚ
  volMa14 : Option ℚ
  volMa21 : Option ℚ
  volZ : Option ℚ
  macd : Option ℚ
  macdS : Option ℚ
  macdH : Option ℚ
  rsi : Option ℚ
  atrN : Option ℚ
  hourSin : ℚ
  hourCos : ℚ
  daySin : ℚ
  dayCos : ℚ
  monSin : ℚ
  monCos : ℚ
  deriving DecidableEq, Repr

namespace Features

/-- The `dropna` condition of `create_advanced_features`: a row survives
iff every column present in the frame holds a number at this position.
Columns guarded by a presence flag (`pandas_ta` results, `Open_Interest`)
take part only when the column exists. -/
def rowComplete (ops : RealOps) (df : MergedBars) (i : ℕ) : Bool :=
  (logRetCol ops df i).isSome && (spLogRetCol ops df i).isSome &&
  (priceRangeCol df i).isSome && (priceChangeCol df i).isSome &&
  (hiPrevCol df i).isSome && (loPrevCol df i).isSome &&
  (volatilityCol ops df 5 i).isSome && (volatilityCol ops df 14 i).isSome &&
  (volatilityCol ops df 21 i).isSome &&
  (volumeMaCol df 5 i).isSome && (volumeMaCol df 14 i).isSome &&
  (volumeMaCol df 21 i).isSome &&
  (volumeZCol ops df i).isSome &&
  (!(hasMACD df) ||
    ((macdCol df i).isSome && (macdSCol df i).isSome &&
      (macdHCol df i).isSome)) &&
  (!(hasRSI df) || (rsiCol df i).isSome) &&
  (!(hasATR df) || (atrNormCol df i).isSome) &&
  (!df.hasOI || (df.oi i).isSome)

/-- The feature row assembled from row `i` of the merged frame. -/
def mkRow (ops : RealOps) (df : MergedBars) (i : ℕ) : FeatureRow :=
  { ts := df.ts i
    close := df.cl i
    oi := if df.hasOI then df.oi i else none
    logRet := logRetCol ops df i
    spLogRet := spLogRetCol ops df i
    priceRange := priceRangeCol df i
    priceChange := priceChangeCol df i
    hiPrev := hiPrevCol df i
    loPrev := loPrevCol df i
    vola5 := volatilityCol ops df 5 i
    vola14 := volatilityCol ops df 14 i
    vola21 := volatilityCol ops df 21 i
    volMa5 := volumeMaCol df 5 i
    volMa14 := volumeMaCol df 14 i
    volMa21 := volumeMaCol df 21 i
    volZ := volumeZCol ops df i
    macd := if hasMACD df then macdCol df i else none
    macdS := if hasMACD df then macdSCol df i else none
    macdH := if hasMACD df then macdHCol df i else none
    rsi := if hasRSI df then rsiCol df i else none
    atrN := if hasATR df then atrNormCol df i else none
    hourSin := ops.sin2pi ((df.hod i : ℚ) / 24)
    hourCos := ops.cos2pi ((df.hod i : ℚ) / 24)
    daySin := ops.sin2pi ((df.dow i : ℚ) / 7)
    dayCos := ops.cos2pi ((df.dow i : ℚ) / 7)
    monSin := ops.sin2pi ((df.mon i : ℚ) / 12)
    monCos := ops.cos2pi ((df.mon i : ℚ) / 12) }

end Features

/-- `create_advanced_features` (`data_collector.py`): derive every feature
column from the merged frame and drop the rows containing an unresolved
(NaN) value in any present column — the output keeps one `FeatureRow` per
surviving row position, in order. -/
def createAdvancedFeatures (ops : RealOps) (df : MergedBars) :
    List FeatureRow :=
  ((List.range df.n).filter (fun i => Features.rowComplete ops df i)).map
    (Features.mkRow ops df)

/-! ## Merge Engine (`merge_all_data` in `data_collector.py`) -/

/-- One element of the raw `ohlcv_data` list:
`[timestamp_ms, Open, High, Low, Close, Volume]`. -/
structure OhlcvRaw where
  tsMs : ℕ
  o : ℚ
  h : ℚ
  l : ℚ
  c : ℚ
  v : ℚ
  deriving DecidableEq, Repr

/-- The merged frame returned by `merge_all_data`: the OHLCV bars are the
driving axis; the `Open_Interest` column exists only when the open-interest
source returned rows (`hasOI`) and keeps its join gaps (NaN, not filled);
the SP500 columns exist only when that source returned rows (`hasSP`) and
are forward-filled then zero-filled.  Only `SP500_Close` is carried (the
other SP500 columns are dropped unused by the feature transform). -/
structure MergedFrame where
  bars : List OhlcvRaw
  hasOI : Bool
  oiCol : List (Option ℚ)
  hasSP : Bool
  spClose : List ℚ
  deriving DecidableEq, Repr

namespace Merge

/-- `df[~df.index.duplicated(keep="first")]`: drop later rows that repeat
an earlier timestamp. -/
def dedupKeepFirst (l : List OhlcvRaw) : List OhlcvRaw :=
  l.foldl
    (fun acc b => if acc.any (fun x => x.tsMs = b.tsMs) then acc
      else acc ++ [b]) []

/-- Left-join lookup of an auxiliary series value at a timestamp. -/
def alookup (t : ℕ) (series : List (ℕ × ℚ)) : Option ℚ :=
  (series.find? (fun p => p.1 = t)).map (fun p => p.2)

/-- `Series.ffill()`: carry the last observed value forward. -/
def ffillGo (last : Option ℚ) : List (Option ℚ) → List (Option ℚ)
  | [] => []
  | x :: xs =>
    match x with
    | some v => some v :: ffillGo (some v) xs
    | none => last :: ffillGo last xs

/-- Forward fill starting with no prior observation. -/
def ffill (l : List (Option ℚ)) : List (Option ℚ) := ffillGo none l

/-- The number of leading rows dropped inside the SP500 branch: rows
before the first bar whose `Close`, `High`, `Low`, `Open` are not all zero
(`idxmin` of the all-zero indicator); when every bar is all-zero the
`if False in ...` guard fails and nothing is dropped. -/
def leadDropCount (bars : List OhlcvRaw) : ℕ :=
  match bars.findIdx? (fun b => !(b.c = 0 ∧ b.h = 0 ∧ b.l = 0 ∧ b.o = 0 : Bool)) with
  | some k => k
  | none => 0

end Merge

/-- `merge_all_data(ohlcv_data, df_oi, df_sp500, sp500_ticker)`: returns
`None` when the OHLCV list is empty; otherwise dedups the OHLCV axis,
left-joins open interest when that frame is non-empty, and, when the SP500
frame is non-empty, left-joins it, forward-fills and zero-fills its
columns and drops the leading all-zero-OHLC rows.  Auxiliary sources are
`List (timestamp, value)` pairs. -/
def merge_all_data (ohlcv : List OhlcvRaw) (oi : List (ℕ × ℚ))
    (sp : List (ℕ × ℚ)) : Option MergedFrame :=
  if ohlcv = [] then none
  else
    let bars0 := Merge.dedupKeepFirst ohlcv
    let hasOI := decide (oi ≠ [])
    let oiCol0 := if hasOI then bars0.map (fun b => Merge.alookup b.tsMs oi)
      else []
    let hasSP := decide (sp ≠ [])
    if hasSP then
      let spJoined := bars0.map (fun b => Merge.alookup b.tsMs sp)
      let spFilled := (Merge.ffill spJoined).map (fun x => x.getD 0)
      let k := Merge.leadDropCount bars0
      some
        { bars := bars0.drop k
          hasOI := hasOI
          oiCol := oiCol0.drop k
          hasSP := true
          spClose := spFilled.drop k }
    else
      some
        { bars := bars0
          hasOI := hasOI
          oiCol := oiCol0
          hasSP := false
          spClose := [] }

/-! ## Incremental Reconciler (`run_incremental_update`, step 3) -/

/-- A stored feature row: timestamp plus an opaque payload standing for
the feature columns. -/
structure TsRow where
  ts : ℕ
  val : ℚ
  deriving DecidableEq, Repr

/-- Maximum timestamp in a list of rows (0 for the empty list). -/
def maxTs (store : List TsRow) : ℕ :=
  store.foldr (fun r m => max r.ts m) 0

/-- `get_last_timestamp`: `SELECT MAX(timestamp)` over the feature table,
`None` when the table is empty. -/
def lastTimestampOf (store : List TsRow) : Option ℕ :=
  if store = [] then none else some (maxTs store)

/-- Step 3 of `run_incremental_update` when a last timestamp exists:
keep only the freshly computed feature rows strictly newer than
`last_timestamp`; if none remain, return without writing; otherwise append
them (`to_sql(if_exists="append")` — prior rows are never touched). -/
def incrementalAppend (lastTs : ℕ) (feats : List TsRow)
    (store : List TsRow) : List TsRow :=
  let newRows := feats.filter (fun r => lastTs < r.ts)
  if newRows = [] then store else store ++ newRows

/-! ## Forecast persistence (`predictor.py`) -/

/-- One row of the `predictions` table.  The primary key is
`(time, model_name, target_hours)`; the value columns are the predicted
log-return and the confidence bounds (all NaN-able).  `created_at` is not
modelled (it is set to `NOW()` and carries no claim). -/
structure PredRow where
  time : ℕ
  modelName : String
  targetHours : ℕ
  predictionLogReturn : Option ℚ
  ciLow : Option ℚ
  ciHigh : Option ℚ
  deriving DecidableEq, Repr

/-- Key equality for the `predictions` primary key. -/
def predKeyEq (a b : PredRow) : Bool :=
  a.time = b.time ∧ a.modelName = b.modelName ∧ a.targetHours = b.targetHours

/-- The `SET`-clause of the `DO UPDATE` branch: replace the value columns
of a row matching the key, leave other rows untouched. -/
def updValues (c r : PredRow) : PredRow :=
  if predKeyEq c r = true then
    { r with
      predictionLogReturn := c.predictionLogReturn
      ciLow := c.ciLow
      ciHigh := c.ciHigh }
  else r

/-- The `INSERT ... ON CONFLICT (time, model_name, target_hours) DO UPDATE`
of `save_prediction`: replace the value columns of the existing row for
the key, or append a new row when the key is absent. -/
def upsertPred (tbl : List PredRow) (c : PredRow) : List PredRow :=
  if tbl.any (fun r => predKeyEq c r) then tbl.map (updValues c)
  else tbl ++ [c]

/-- The database write inside `save_prediction`'s `ENGINE.begin()` block:
either the statement applies as a whole, or it raises and (the transaction
being rolled back) leaves no partial state.  `fail` abstracts whether the
write raises. -/
def execUpsertPred (fail : Bool) (tbl : List PredRow) (c : PredRow) :
    Except String (List PredRow) :=
  if fail then Except.error "db write failed" else Except.ok (upsertPred tbl c)

/-- `save_prediction`: run the upsert inside a transaction; any exception
is caught (`except ... print`) and the table is left as it was. -/
def save_prediction (fail : Bool) (tbl : List PredRow) (c : PredRow) :
    List PredRow :=
  match execUpsertPred fail tbl c with
  | Except.ok t => t
  | Except.error _ => tbl

/-- `cleanup_old_predictions(keep_hours)` in `predictor.py`: compute the
cutoff `now - keep_hours`, count the rows strictly older than the cutoff,
return unchanged when there are none, otherwise delete exactly those rows.
Returns the new table and the number of deleted rows.  Times are hours on
an integer axis. -/
def cleanup_old_predictions (now keepHours : ℤ) (tbl : List PredRow) :
    List PredRow × ℕ :=
  let cutoff := now - keepHours
  let old := tbl.filter (fun r => (r.time : ℤ) < cutoff)
  if old.length = 0 then (tbl, 0)
  else (tbl.filter (fun r => ¬((r.time : ℤ) < cutoff)), old.length)

/-! ## Forecast Orchestrator (`run_prediction` in `predictor.py`) -/

/-- `TARGET_HORIZONS = [6, 12, 24]`. -/
def TARGET_HORIZONS : List ℕ := [6, 12, 24]

/-- `Z_SCORE_95 = 1.96`. -/
def Z_SCORE_95 : ℚ := 196 / 100

/-- `LSTM_TIME_STEPS = 48`. -/
def LSTM_TIME_STEPS : ℕ := 48

/-- `DUMMY_SCALER_PARAMS` as `(mean, scale)` per horizon, with the
`.get(h, default)` fallback `(0, 1)`. -/
def dummyScalerParams (h : ℕ) : ℚ × ℚ :=
  if h = 6 then (1 / 1000000, 1 / 200)
  else if h = 12 then (1 / 500000, 1 / 125)
  else if h = 24 then (1 / 200000, 3 / 250)
  else (0, 1)

/-- `scaler_y.inverse_transform` of the dummy `StandardScaler`:
`scaled * scale + mean`. -/
def denorm (h : ℕ) (scaled : ℚ) : ℚ :=
  scaled * (dummyScalerParams h).2 + (dummyScalerParams h).1

/-- The external state of one orchestrator run: the number of feature rows
loaded (`len(X_latest_df)`), the timestamp of the newest row
(`prediction_time`), the contents of `model_errors.json` (`none` when the
file is absent), whether each scaler artifact loads, and for each backend
the scaled model output (`none` when the model artifact is missing or
fails to load; for the LSTM, the flattened multi-horizon output vector). -/
structure OrchEnv where
  nRows : ℕ
  latestTs : ℕ
  errorsFile : Option (List (String × ℚ))
  lrScalerOk : Bool
  lrModel : ℕ → Option ℚ
  xgbModel : ℕ → Option ℚ
  lstmScalerOk : Bool
  lstmModel : Option (List ℚ)

/-- `MODEL_ERRORS` after `load_model_errors()`: the parsed file, or the
untouched empty dict when the file is absent (`FileNotFoundError` is
caught). -/
def modelErrorsOf (env : OrchEnv) : List (String × ℚ) :=
  env.errorsFile.getD []

/-- `MODEL_ERRORS.get(base_name, 0)`. -/
def rmseFor (errors : List (String × ℚ)) (base : String) : ℚ :=
  ((errors.find? (fun p => p.1 = base)).map (fun p => p.2)).getD 0

/-- `load_model_and_predict(model_path, model_type, X_latest, target_h)`:
returns the list of denormalized predictions, with `np.nan` (here `none`)
entries when the model artifact or a scaler is missing, or when fewer than
`LSTM_TIME_STEPS` feature rows are available for the LSTM window. -/
def load_model_and_predict (env : OrchEnv) (modelType : String)
    (targetH : ℕ) : List (Option ℚ) :=
  if modelType = "LR" then
    match env.lrModel targetH with
    | none => [none]
    | some v =>
      if env.lrScalerOk then [some (denorm targetH v)] else [none]
  else if modelType = "XGB" then
    match env.xgbModel targetH with
    | none => [none]
    | some v => [some (denorm targetH v)]
  else if modelType = "LSTM" then
    match env.lstmModel with
    | none => [none, none, none]
    | some vs =>
      if env.nRows < LSTM_TIME_STEPS then [none, none, none]
      else if !env.lstmScalerOk then [none, none, none]
      else
        TARGET_HORIZONS.enum.map (fun p =>
          if p.1 < vs.length then some (denorm p.2 (vs.getD p.1 0))
          else none)
  else [none, none, none]

/-- `f"{base}_log_return_{h}h"`. -/
def mkModelName (base : String) (h : ℕ) : String :=
  base ++ "_log_return_" ++ toString h ++ "h"

/-- One `save_prediction` argument tuple of the LR / XGBoost branch of
`run_prediction`: prediction value guarded by `np.isfinite`, RMSE looked
up under the base model name, and the `1.96 * rmse` margin applied to both
bounds. -/
def callForPointModel (env : OrchEnv) (base modelType : String) (h : ℕ) :
    PredRow :=
  let preds := load_model_and_predict env modelType h
  let predictionVal : Option ℚ :=
    match preds.head? with
    | some (some p) => some p
    | _ => none
  let rmse := rmseFor (modelErrorsOf env) base
  let margin := Z_SCORE_95 * rmse
  { time := env.latestTs
    modelName := mkModelName base h
    targetHours := h
    predictionLogReturn := predictionVal
    ciLow := predictionVal.map (fun p => p - margin)
    ciHigh := predictionVal.map (fun p => p + margin) }

/-- The `save_prediction` argument tuples of the LSTM branch of
`run_prediction` (one per horizon, from the single multi-horizon model
output). -/
def callsForLstm (env : OrchEnv) : List PredRow :=
  let preds := load_model_and_predict env "LSTM" 0
  TARGET_HORIZONS.enum.map (fun p =>
    let prediction := preds.getD p.1 none
    let rmse := rmseFor (modelErrorsOf env) "LSTM"
    let margin := Z_SCORE_95 * rmse
    { time := env.latestTs
      modelName := mkModelName "LSTM" p.2
      targetHours := p.2
      predictionLogReturn := prediction
      ciLow := prediction.map (fun q => q - margin)
      ciHigh := prediction.map (fun q => q + margin) })

/-- All `save_prediction` calls of one `run_prediction` run, in the
iteration order of `MODELS = {LinearRegression: LR, XGBoost: XGB,
LSTM: LSTM}` with the inner loop over `TARGET_HORIZONS`. -/
def saveCalls (env : OrchEnv) : List PredRow :=
  (TARGET_HORIZONS.map (fun h => callForPointModel env "LinearRegression" "LR" h)) ++
  (TARGET_HORIZONS.map (fun h => callForPointModel env "XGBoost" "XGB" h)) ++
  callsForLstm env

/-- The predictions table after one `run_prediction` run: every save call
is applied in order through `save_prediction`, where `writeFails` tells
which writes raise (and are caught). -/
def run_prediction_table (env : OrchEnv) (writeFails : String → Bool)
    (tbl : List PredRow) : List PredRow :=
  (saveCalls env).foldl
    (fun t c => save_prediction (writeFails c.modelName) t c) tbl

/-- The `predictions` table invariant enforced by its primary key: no two
rows share a `(time, model_name, target_hours)` key. -/
def AtMostOnePerKey (tbl : List PredRow) : Prop :=
  tbl.Pairwise (fun a b => predKeyEq a b = false)

/-- "Valid" 120-bar merged frame of the end-to-end scenario: 120 rows of
hour bars with positive prices, an everywhere-present open-interest
column, non-degenerate volumes (adjacent bars differ, as real volume data
does — a constant-volume window makes the volume z-score a float `0/0`)
and a non-constant close (a globally constant close makes the RSI a float
`0/0`). -/
def Valid120 (df : MergedBars) : Prop :=
  df.n = 120 ∧
  (∀ i, i < 120 → 0 < df.op i ∧ 0 < df.hi i ∧ 0 < df.lo i ∧
    0 < df.cl i ∧ 0 < df.sp i) ∧
  (∀ i, i + 1 < 120 → df.vol i ≠ df.vol (i + 1)) ∧
  df.cl 0 ≠ df.cl 1 ∧
  df.hasOI = true ∧
  (∀ i, i < 120 → (df.oi i).isSome)

/-! ## Concrete frames and environments used to instantiate theorems -/

/-- A concrete valid 120-bar merged frame (alternating closes and
volumes, constant auxiliary values). -/
def exampleDf : MergedBars :=
  { n := 120
    ts := fun i => 1000 + i
    op := fun _ => 1
    hi := fun _ => 2
    lo := fun _ => 1
    cl := fun i => 1 + ((i % 2 : ℕ) : ℚ) / 20
    vol := fun i => 1 + ((i % 2 : ℕ) : ℚ)
    sp := fun _ => 5
    hasOI := true
    oi := fun _ => some 3
    hod := fun i => i % 24
    dow := fun i => (i / 24) % 7
    mon := fun _ => 5 }

/-- `exampleDf` with the bars from position 50 on replaced: used to
instantiate the causality statement (agreement below an index). -/
def exampleDfMod : MergedBars :=
  { exampleDf with
    cl := fun i => if i < 50 then exampleDf.cl i else 7
    hi := fun i => if i < 50 then exampleDf.hi i else 9
    lo := fun i => if i < 50 then exampleDf.lo i else 8 }

/-- A frame whose close spikes at bar 14 and whose high spikes at bar 15,
constant elsewhere: on it the one-bar-lagged indicator columns differ in
value from the same indicators computed on the unshifted series. -/
def spikeDf : MergedBars :=
  { n := 120
    ts := fun i => i
    op := fun _ => 1
    hi := fun i => if i = 15 then 5 else 2
    lo := fun _ => 1
    cl := fun i => if i = 14 then 2 else 1
    vol := fun _ => 1
    sp := fun _ => 1
    hasOI := false
    oi := fun _ => none
    hod := fun _ => 0
    dow := fun _ => 0
    mon := fun _ => 1 }

/-- A one-bar OHLCV input for the merge engine. -/
def exampleBar : OhlcvRaw :=
  { tsMs := 3600000, o := 10, h := 12, l := 9, c := 11, v := 100 }

/-- Orchestrator environment in which every artifact loads and the error
file is present. -/
def exampleEnvOk : OrchEnv :=
  { nRows := 53
    latestTs := 777
    errorsFile := some
      [("LinearRegression", 1 / 100), ("XGBoost", 0), ("LSTM", 3 / 100)]
    lrScalerOk := true
    lrModel := fun _ => some (1 / 2)
    xgbModel := fun _ => some (1 / 3)
    lstmScalerOk := true
    lstmModel := some [1 / 4, 1 / 5, 1 / 6] }

/-- Orchestrator environment in which the LinearRegression artifact for
the 6-hour horizon is missing and the LSTM has too little history. -/
def exampleEnvMissing : OrchEnv :=
  { nRows := 20
    latestTs := 888
    errorsFile := some [("LinearRegression", 1 / 100)]
    lrScalerOk := true
    lrModel := fun h => if h = 6 then none else some (1 / 2)
    xgbModel := fun _ => some (1 / 3)
    lstmScalerOk := true
    lstmModel := some [1 / 4, 1 / 5, 1 / 6] }

/-- A concrete prediction row. -/
def exampleRow1 : PredRow :=
  { time := 100, modelName := "LinearRegression_log_return_6h"
    targetHours := 6, predictionLogReturn := some 1, ciLow := some 0
    ciHigh := some 2 }

/-- A second write for the same key as `exampleRow1` with different
values. -/
def exampleRow2 : PredRow :=
  { time := 100, modelName := "LinearRegression_log_return_6h"
    targetHours := 6, predictionLogReturn := some (1 / 2)
    ciLow := some (1 / 4), ciHigh := some (3 / 4) }

/-- A row under a different key. -/
def exampleRow3 : PredRow :=
  { time := 100, modelName := "XGBoost_log_return_12h", targetHours := 12
    predictionLogReturn := some 2, ciLow := some 1, ciHigh := some 3 }

/-- A small feature store for the incremental scenario. -/
def exampleStore : List TsRow := [⟨1, 10⟩, ⟨2, 20⟩]

/-- Freshly computed features of the first incremental run: one stale row
and one new row. -/
def exampleFeats1 : List TsRow := [⟨2, 21⟩, ⟨3, 30⟩]

/-- Features recomputed by an immediately following second run over the
same upstream data. -/
def exampleFeats2 : List TsRow := [⟨2, 21⟩, ⟨3, 30⟩]

/-! ## Theorems -/

/-! ## Retention sweeper -/

theorem maxTs_ge {r : TsRow} {l : List TsRow} (h : r ∈ l) : r.ts ≤ maxTs l := by
  induction l with
  | nil => cases h
  | cons a t ih =>
    rcases List.mem_cons.mp h with rfl | hm
    · exact le_max_left _ _
    · exact le_trans (ih hm) (le_max_right _ _)

theorem maxTs_append (a b : List TsRow) :
    maxTs (a ++ b) = max (maxTs a) (maxTs b) := by
  induction a with
  | nil => simp [maxTs]
  | cons x t ih =>
    simp only [maxTs, List.foldr_cons, List.cons_append] at *
    rw [ih, max_assoc]

/-- The sweep is the identity (and deletes zero rows) when no row is
older than the cutoff. -/
theorem cleanup_of_no_old (now keepHours : ℤ) (tbl : List PredRow)
    (h : tbl.filter (fun r => (r.time : ℤ) < now - keepHours) = []) :
    cleanup_old_predictions now keepHours tbl = (tbl, 0) := by
  simp only [cleanup_old_predictions]
  rw [h]
  rfl

/-- The sweep deletes exactly the rows older than the cutoff. -/
theorem cleanup_fst (now keepHours : ℤ) (tbl : List PredRow) :
    (cleanup_old_predictions now keepHours tbl).1
      = tbl.filter (fun r => ¬((r.time : ℤ) < now - keepHours)) := by
  simp only [cleanup_old_predictions]
  by_cases h0 :
      (tbl.filter (fun r => (r.time : ℤ) < now - keepHours)).length = 0
  · rw [if_pos h0]
    have hnil : tbl.filter (fun r => (r.time : ℤ) < now - keepHours) = [] :=
      List.eq_nil_of_length_eq_zero h0
    have : ∀ r ∈ tbl, ¬((r.time : ℤ) < now - keepHours) := by
      intro r hr
      have := List.filter_eq_nil_iff.mp hnil r hr
      simpa using this
    symm
    rw [List.filter_eq_self]
    intro r hr
    simpa using this r hr
  · rw [if_neg h0]

/-- C6: after sweeping with retention `keepHours` at time `now`, no
prediction older than the cutoff remains, the rows at or after the cutoff
are kept unchanged (the table is exactly their subsequence), and an
immediately repeated sweep with no new data deletes zero rows and leaves
the table untouched. -/
theorem C6_retention_sweep (now keepHours : ℤ) (tbl : List PredRow) :
    (∀ r ∈ (cleanup_old_predictions now keepHours tbl).1,
      ¬((r.time : ℤ) < now - keepHours)) ∧
    (cleanup_old_predictions now keepHours tbl).1
      = tbl.filter (fun r => now - keepHours ≤ (r.time : ℤ)) ∧
    cleanup_old_predictions now keepHours
        (cleanup_old_predictions now keepHours tbl).1
      = ((cleanup_old_predictions now keepHours tbl).1, 0) := by
  have hmem : ∀ r ∈ (cleanup_old_predictions now keepHours tbl).1,
      ¬((r.time : ℤ) < now - keepHours) := by
    intro r hr
    rw [cleanup_fst] at hr
    have := (List.mem_filter.mp hr).2
    simpa using this
  refine ⟨hmem, ?_, ?_⟩
  · rw [cleanup_fst]
    apply List.filter_congr
    intro x _
    simp [not_lt]
  · apply cleanup_of_no_old
    rw [List.filter_eq_nil_iff]
    intro r hr
    simpa using hmem r hr

/-! ## Incremental reconciler -/

/-- Unfolding equation for `incrementalAppend`. -/
theorem incrementalAppend_eq (lastTs : ℕ) (feats store : List TsRow) :
    incrementalAppend lastTs feats store
      = if feats.filter (fun r => lastTs < r.ts) = [] then store
        else store ++ feats.filter (fun r => lastTs < r.ts) := rfl

/-- C5: in incremental mode only rows strictly newer than the last
persisted timestamp are appended (prior rows are preserved as a prefix,
untouched), an empty new-row set writes nothing, and a second run over the
same upstream data (every recomputed row either predates the old last
timestamp or carries a timestamp already produced by the first run)
appends zero rows. -/
theorem C5_incremental_append (lastTs : ℕ) (feats feats2 store : List TsRow) :
    (∀ r ∈ incrementalAppend lastTs feats store,
      r ∈ store ∨ (r ∈ feats ∧ lastTs < r.ts)) ∧
    (incrementalAppend lastTs feats store).take store.length = store ∧
    (feats.filter (fun r => lastTs < r.ts) = [] →
      incrementalAppend lastTs feats store = store) ∧
    (lastTimestampOf store = some lastTs →
      (∀ r ∈ feats2, r.ts ≤ lastTs ∨ ∃ q ∈ feats, q.ts = r.ts) →
      lastTimestampOf (incrementalAppend lastTs feats store)
          = some (maxTs (incrementalAppend lastTs feats store)) ∧
      feats2.filter
          (fun r => maxTs (incrementalAppend lastTs feats store) < r.ts) = [] ∧
      incrementalAppend (maxTs (incrementalAppend lastTs feats store)) feats2
          (incrementalAppend lastTs feats store)
        = incrementalAppend lastTs feats store) := by
  refine ⟨?_, ?_, ?_, ?_⟩
  · intro r hr
    rw [incrementalAppend_eq] at hr
    by_cases he : feats.filter (fun q => lastTs < q.ts) = []
    · rw [if_pos he] at hr
      exact Or.inl hr
    · rw [if_neg he] at hr
      rcases List.mem_append.mp hr with h | h
      · exact Or.inl h
      · right
        have := List.mem_filter.mp h
        exact ⟨this.1, by simpa using this.2⟩
  · rw [incrementalAppend_eq]
    by_cases he : feats.filter (fun q => lastTs < q.ts) = []
    · rw [if_pos he, List.take_length]
    · rw [if_neg he, List.take_left]
  · intro h
    rw [incrementalAppend_eq, if_pos h]
  · intro hlast hsame
    have hne : store ≠ [] := by
      intro hcon
      rw [hcon] at hlast
      simp [lastTimestampOf] at hlast
    have hmax : maxTs store = lastTs := by
      have := hlast
      rw [lastTimestampOf, if_neg hne] at this
      exact Option.some_injective _ this
    have hne1 : incrementalAppend lastTs feats store ≠ [] := by
      rw [incrementalAppend_eq]
      by_cases he : feats.filter (fun q => lastTs < q.ts) = []
      · rw [if_pos he]; exact hne
      · rw [if_neg he]
        simp [hne]
    have hle : lastTs ≤ maxTs (incrementalAppend lastTs feats store) := by
      rw [incrementalAppend_eq]
      by_cases he : feats.filter (fun q => lastTs < q.ts) = []
      · rw [if_pos he, hmax]
      · rw [if_neg he, maxTs_append, hmax]
        exact le_max_left _ _
    have hmem1 : ∀ q ∈ feats.filter (fun q => lastTs < q.ts),
        q.ts ≤ maxTs (incrementalAppend lastTs feats store) := by
      intro q hq
      by_cases he : feats.filter (fun q => lastTs < q.ts) = []
      · rw [he] at hq
        cases hq
      · have hmem : q ∈ incrementalAppend lastTs feats store := by
          rw [incrementalAppend_eq, if_neg he]
          exact List.mem_append.mpr (Or.inr hq)
        exact maxTs_ge hmem
    have hall2 : ∀ r ∈ feats2,
        ¬(maxTs (incrementalAppend lastTs feats store) < r.ts) := by
      intro r hr
      rcases hsame r hr with hle2 | ⟨q, hq, hqts⟩
      · exact not_lt.mpr (le_trans hle2 hle)
      · by_cases hq2 : lastTs < q.ts
        · have hqn : q ∈ feats.filter (fun x => lastTs < x.ts) :=
            List.mem_filter.mpr ⟨hq, by simpa using hq2⟩
          rw [← hqts]
          exact not_lt.mpr (hmem1 q hqn)
        · rw [← hqts]
          exact not_lt.mpr (le_trans (not_lt.mp hq2) hle)
    have hfil2 : feats2.filter
        (fun r => maxTs (incrementalAppend lastTs feats store) < r.ts) = [] := by
      rw [List.filter_eq_nil_iff]
      intro r hr
      simpa using hall2 r hr
    refine ⟨?_, hfil2, ?_⟩
    · rw [lastTimestampOf, if_neg hne1]
    · rw [incrementalAppend_eq, if_pos hfil2]

/-! ## Save-failure isolation -/

/-- C10: a failing database write inside the forecast upsert raises inside
the transaction, the exception is caught and the table is left exactly as
it was (no partial row); consequently a whole orchestrator run equals the
run in which the failed writes are simply skipped while every other
(backend, horizon) write is still applied. -/
theorem C10_save_failure_isolated :
    (∀ (tbl : List PredRow) (c : PredRow),
      execUpsertPred true tbl c = Except.error "db write failed" ∧
      save_prediction true tbl c = tbl ∧
      save_prediction false tbl c = upsertPred tbl c) ∧
    (∀ (env : OrchEnv) (writeFails : String → Bool) (tbl : List PredRow),
      run_prediction_table env writeFails tbl
        = (saveCalls env).foldl
            (fun t c => if writeFails c.modelName then t else upsertPred t c)
            tbl) := by
  constructor
  · intro tbl c
    refine ⟨rfl, rfl, rfl⟩
  · intro env writeFails tbl
    rw [run_prediction_table]
    induction saveCalls env generalizing tbl with
    | nil => rfl
    | cons c t ih =>
      simp only [List.foldl_cons]
      rw [ih]
      by_cases h : writeFails c.modelName
      · simp [h, save_prediction, execUpsertPred]
      · simp [h, save_prediction, execUpsertPred]


/-! ## Upsert semantics of the predictions table -/

theorem predKeyEq_iff (a b : PredRow) :
    predKeyEq a b = true ↔
      a.time = b.time ∧ a.modelName = b.modelName ∧
      a.targetHours = b.targetHours := by
  simp [predKeyEq]

theorem predKeyEq_self (a : PredRow) : predKeyEq a a = true := by
  simp [predKeyEq]

theorem predKeyEq_symm {a b : PredRow} (h : predKeyEq a b = true) :
    predKeyEq b a = true := by
  rw [predKeyEq_iff] at h ⊢
  exact ⟨h.1.symm, h.2.1.symm, h.2.2.symm⟩

theorem predKeyEq_trans {a b c : PredRow} (h1 : predKeyEq a b = true)
    (h2 : predKeyEq b c = true) : predKeyEq a c = true := by
  rw [predKeyEq_iff] at h1 h2 ⊢
  exact ⟨h1.1.trans h2.1, h1.2.1.trans h2.2.1, h1.2.2.trans h2.2.2⟩

/-- The update clause leaves every key field unchanged. -/
theorem updValues_keyFields (c r : PredRow) :
    (updValues c r).time = r.time ∧
    (updValues c r).modelName = r.modelName ∧
    (updValues c r).targetHours = r.targetHours := by
  rw [updValues]
  by_cases h : predKeyEq c r = true
  · rw [if_pos h]
    exact ⟨rfl, rfl, rfl⟩
  · rw [if_neg h]
    exact ⟨rfl, rfl, rfl⟩

theorem predKeyEq_updValues (c d r : PredRow) :
    predKeyEq d (updValues c r) = predKeyEq d r := by
  obtain ⟨h1, h2, h3⟩ := updValues_keyFields c r
  by_cases h : predKeyEq d r = true
  · rw [h]
    rw [predKeyEq_iff] at h ⊢
    exact ⟨h1 ▸ h.1, h2 ▸ h.2.1, h3 ▸ h.2.2⟩
  · rw [Bool.eq_false_iff.mpr h, Bool.eq_false_iff]
    intro hcon
    rw [predKeyEq_iff] at hcon
    exact h (predKeyEq_iff d r |>.mpr ⟨h1 ▸ hcon.1, h2 ▸ hcon.2.1, h3 ▸ hcon.2.2⟩)

/-- Rewriting a matching row installs the new value fields; by key
equality the result is the incoming row itself. -/
theorem updValues_of_eq {c r : PredRow} (h : predKeyEq c r = true) :
    updValues c r = c := by
  rw [predKeyEq_iff] at h
  rw [updValues, if_pos (predKeyEq_iff c r |>.mpr h)]
  obtain ⟨h1, h2, h3⟩ := h
  cases c
  cases r
  simp_all

theorem updValues_of_ne {c r : PredRow} (h : predKeyEq c r = false) :
    updValues c r = r := by
  rw [updValues, if_neg (by rw [h]; exact Bool.false_ne_true)]

/-- Under the primary-key invariant, at most one stored row matches any
key. -/
theorem filter_key_of_atMostOne {tbl : List PredRow} (c : PredRow)
    (hw : AtMostOnePerKey tbl) :
    tbl.filter (fun r => predKeyEq c r) = [] ∨
      ∃ x, predKeyEq c x = true ∧
        tbl.filter (fun r => predKeyEq c r) = [x] := by
  induction tbl with
  | nil => exact Or.inl rfl
  | cons r t ih =>
    have hp := List.pairwise_cons.mp hw
    by_cases hr : predKeyEq c r = true
    · right
      refine ⟨r, hr, ?_⟩
      have hnone : t.filter (fun x => predKeyEq c x) = [] := by
        rw [List.filter_eq_nil_iff]
        intro x hx hcx
        have hrx : predKeyEq r x = true :=
          predKeyEq_trans (predKeyEq_symm hr) hcx
        rw [hp.1 x hx] at hrx
        cases hrx
      simp [List.filter_cons, hr, hnone]
    · have := ih hp.2
      simpa [List.filter_cons, hr] using this

/-- The upsert preserves the primary-key invariant. -/
theorem upsertPred_atMostOne {tbl : List PredRow} (c : PredRow)
    (hw : AtMostOnePerKey tbl) : AtMostOnePerKey (upsertPred tbl c) := by
  rw [upsertPred]
  by_cases hany : tbl.any (fun r => predKeyEq c r)
  · rw [if_pos hany]
    rw [AtMostOnePerKey, List.pairwise_map]
    apply List.Pairwise.imp_of_mem ?_ hw
    intro a b _ _ hab
    rw [Bool.eq_false_iff]
    intro hcon
    have h1 : predKeyEq (updValues c a) b = true := by
      have := predKeyEq_updValues c (updValues c a) b
      rw [← this]
      exact hcon
    have h2 : predKeyEq a b = true := by
      obtain ⟨k1, k2, k3⟩ := updValues_keyFields c a
      rw [predKeyEq_iff] at h1 ⊢
      exact ⟨k1 ▸ h1.1, k2 ▸ h1.2.1, k3 ▸ h1.2.2⟩
    rw [hab] at h2
    cases h2
  · rw [if_neg hany]
    rw [AtMostOnePerKey, List.pairwise_append]
    refine ⟨hw, List.pairwise_singleton _ _, ?_⟩
    intro x hx y hy
    have hy1 : y = c := by simpa using hy
    subst hy1
    rw [Bool.eq_false_iff]
    intro hcon
    rw [List.any_eq_true] at hany
    exact hany ⟨x, hx, predKeyEq_symm hcon⟩

/-- After an upsert under the invariant, exactly one row carries the key,
holding the upserted values. -/
theorem upsertPred_filter {tbl : List PredRow} (c : PredRow)
    (hw : AtMostOnePerKey tbl) :
    (upsertPred tbl c).filter (fun r => predKeyEq c r) = [c] := by
  rw [upsertPred]
  by_cases hany : tbl.any (fun r => predKeyEq c r)
  · rw [if_pos hany]
    have hcomm : (tbl.map (updValues c)).filter (fun r => predKeyEq c r)
        = (tbl.filter (fun r => predKeyEq c r)).map (updValues c) := by
      rw [List.filter_map]
      congr 1
      apply List.filter_congr
      intro x _
      exact predKeyEq_updValues c c x
    rw [hcomm]
    rcases filter_key_of_atMostOne c hw with hnil | ⟨x, hx, hfx⟩
    · rw [List.any_eq_true] at hany
      obtain ⟨x, hx, hcx⟩ := hany
      have := List.filter_eq_nil_iff.mp hnil x hx
      rw [hcx] at this
      cases this rfl
    · rw [hfx]
      simp [updValues_of_eq hx]
  · rw [if_neg hany]
    rw [List.filter_append]
    have h1 : tbl.filter (fun r => predKeyEq c r) = [] := by
      rw [List.filter_eq_nil_iff]
      intro x hx hcx
      rw [List.any_eq_true] at hany
      exact hany ⟨x, hx, hcx⟩
    rw [h1]
    simp [predKeyEq_self]

/-- An upsert for a key already present replaces in place: the row count
does not change. -/
theorem upsertPred_length_of_mem {tbl : List PredRow} (c : PredRow)
    (hany : tbl.any (fun r => predKeyEq c r) = true) :
    (upsertPred tbl c).length = tbl.length := by
  rw [upsertPred, if_pos hany, List.length_map]

/-- C2: under the primary-key invariant the upsert keeps at most one row
per `(time, model_name, horizon)` key, and two successive persist calls
for the same key leave exactly one row for that key, holding the second
call's values (the second write replaces in place — the row count does not
grow). -/
theorem C2_upsert_semantics (tbl : List PredRow) (c1 c2 : PredRow)
    (hw : AtMostOnePerKey tbl) (hk : predKeyEq c1 c2 = true) :
    AtMostOnePerKey (upsertPred tbl c1) ∧
    AtMostOnePerKey (upsertPred (upsertPred tbl c1) c2) ∧
    (upsertPred (upsertPred tbl c1) c2).filter (fun r => predKeyEq c2 r)
      = [c2] ∧
    (upsertPred (upsertPred tbl c1) c2).length
      = (upsertPred tbl c1).length := by
  have h1 := upsertPred_atMostOne c1 hw
  refine ⟨h1, upsertPred_atMostOne c2 h1, upsertPred_filter c2 h1, ?_⟩
  apply upsertPred_length_of_mem
  have hf1 := upsertPred_filter c1 hw
  have hc1mem : c1 ∈ upsertPred tbl c1 := by
    have : c1 ∈ (upsertPred tbl c1).filter (fun r => predKeyEq c1 r) := by
      rw [hf1]
      exact List.mem_singleton.mpr rfl
    exact (List.mem_filter.mp this).1
  rw [List.any_eq_true]
  exact ⟨c1, hc1mem, predKeyEq_symm hk⟩

/-- Witness: two concrete persist calls for the same key on a concrete
one-row table. -/
theorem C2_upsert_semantics_witness :
    AtMostOnePerKey [exampleRow3] ∧
    predKeyEq exampleRow1 exampleRow2 = true ∧
    ((upsertPred (upsertPred [exampleRow3] exampleRow1) exampleRow2).filter
        (fun r => predKeyEq exampleRow2 r) = [exampleRow2] ∧
      (upsertPred (upsertPred [exampleRow3] exampleRow1) exampleRow2).length
        = (upsertPred [exampleRow3] exampleRow1).length) :=
  ⟨List.pairwise_singleton _ _, by decide,
    (C2_upsert_semantics [exampleRow3] exampleRow1 exampleRow2
      (List.pairwise_singleton _ _) (by decide)).2.2⟩

/-! ## Forecast orchestrator: save calls and confidence intervals -/

/-- The nine model names submitted by one run, independent of the
environment. -/
theorem saveCalls_names (env : OrchEnv) :
    (saveCalls env).map (fun c => c.modelName) =
      ["LinearRegression_log_return_6h", "LinearRegression_log_return_12h",
        "LinearRegression_log_return_24h", "XGBoost_log_return_6h",
        "XGBoost_log_return_12h", "XGBoost_log_return_24h",
        "LSTM_log_return_6h", "LSTM_log_return_12h",
        "LSTM_log_return_24h"] := rfl

/-- The nine save calls of one run carry pairwise distinct primary keys. -/
theorem saveCalls_pairwise (env : OrchEnv) :
    (saveCalls env).Pairwise (fun a b => predKeyEq a b = false) := by
  have hnames : ((saveCalls env).map (fun c => c.modelName)).Pairwise
      (fun a b => a ≠ b) := by
    rw [saveCalls_names]
    decide
  rw [List.pairwise_map] at hnames
  apply List.Pairwise.imp ?_ hnames
  intro a b hab
  rw [Bool.eq_false_iff]
  intro hcon
  exact hab ((predKeyEq_iff a b).mp hcon).2.1

/-- `run_prediction_table` unfolds to the fold that skips the failing
writes and upserts the successful ones. -/
theorem run_prediction_table_eq (env : OrchEnv) (writeFails : String → Bool)
    (tbl : List PredRow) :
    run_prediction_table env writeFails tbl
      = (saveCalls env).foldl
          (fun t c => if writeFails c.modelName then t else upsertPred t c)
          tbl := by
  rw [run_prediction_table]
  induction saveCalls env generalizing tbl with
  | nil => rfl
  | cons c t ih =>
    simp only [List.foldl_cons]
    rw [ih]
    by_cases h : writeFails c.modelName
    · simp [h, save_prediction, execUpsertPred]
    · simp [h, save_prediction, execUpsertPred]

/-- Upserting a sequence of pairwise-fresh keys into a table that holds
none of them is a plain append. -/
theorem foldl_upsert_fresh (calls : List PredRow) :
    ∀ tbl : List PredRow,
      (∀ c ∈ calls, tbl.any (fun r => predKeyEq c r) = false) →
      calls.Pairwise (fun a b => predKeyEq a b = false) →
      calls.foldl upsertPred tbl = tbl ++ calls := by
  induction calls with
  | nil => intro tbl _ _; simp
  | cons c t ih =>
    intro tbl hfresh hpw
    have hp := List.pairwise_cons.mp hpw
    have hc : tbl.any (fun r => predKeyEq c r) = false :=
      hfresh c (List.mem_cons_self c t)
    have hstep : upsertPred tbl c = tbl ++ [c] := by
      rw [upsertPred, if_neg (by rw [hc]; exact Bool.false_ne_true)]
    rw [List.foldl_cons, hstep]
    rw [ih (tbl ++ [c]) ?_ hp.2]
    · simp
    · intro d hd
      rw [List.any_append]
      have h1 : tbl.any (fun r => predKeyEq d r) = false := by
        rw [List.any_eq_false]
        intro r hr
        have := List.any_eq_false.mp (hfresh d (List.mem_cons_of_mem c hd)) r hr
        simpa using this
      have h2 : [c].any (fun r => predKeyEq d r) = false := by
        simp only [List.any_cons, List.any_nil, Bool.or_false]
        rw [Bool.eq_false_iff]
        intro hcon
        have := hp.1 d hd
        rw [predKeyEq_symm hcon] at this
        cases this
      rw [h1, h2]
      rfl

/-- With no write failures and an initially empty table, one run persists
exactly its nine save calls. -/
theorem run_table_no_failures (env : OrchEnv) :
    run_prediction_table env (fun _ => false) [] = saveCalls env := by
  rw [run_prediction_table_eq]
  have : ((saveCalls env).foldl
      (fun t c => if (fun (_ : String) => false) c.modelName then t
        else upsertPred t c) ([] : List PredRow))
      = (saveCalls env).foldl upsertPred [] := by
    simp
  rw [this, foldl_upsert_fresh (saveCalls env) [] (by intro c _; rfl)
    (saveCalls_pairwise env)]
  rfl

/-- The CI bounds of a point-model call are the prediction shifted by the
margin. -/
theorem callForPointModel_ci (env : OrchEnv) (base mt : String) (h : ℕ) :
    (callForPointModel env base mt h).ciLow
        = (callForPointModel env base mt h).predictionLogReturn.map
            (fun p => p - Z_SCORE_95 * rmseFor (modelErrorsOf env) base) ∧
    (callForPointModel env base mt h).ciHigh
        = (callForPointModel env base mt h).predictionLogReturn.map
            (fun p => p + Z_SCORE_95 * rmseFor (modelErrorsOf env) base) :=
  ⟨rfl, rfl⟩

/-- The CI bounds of an LSTM call are the prediction shifted by the
margin. -/
theorem callsForLstm_ci (env : OrchEnv) (c : PredRow)
    (hc : c ∈ callsForLstm env) :
    c.time = env.latestTs ∧
    c.modelName = mkModelName "LSTM" c.targetHours ∧
    c.ciLow = c.predictionLogReturn.map
      (fun p => p - Z_SCORE_95 * rmseFor (modelErrorsOf env) "LSTM") ∧
    c.ciHigh = c.predictionLogReturn.map
      (fun p => p + Z_SCORE_95 * rmseFor (modelErrorsOf env) "LSTM") := by
  have henum : TARGET_HORIZONS.enum = [(0, 6), (1, 12), (2, 24)] := rfl
  simp only [callsForLstm, henum, List.map_cons, List.map_nil,
    List.mem_cons, List.not_mem_nil, or_false] at hc
  rcases hc with rfl | rfl | rfl <;> exact ⟨rfl, rfl, rfl, rfl⟩

/-- C1: every persisted forecast carries `ci_low = prediction - 1.96*rmse`
and `ci_high = prediction + 1.96*rmse`, with the RMSE looked up under the
backend's base name only (the same value for all horizons of a backend);
hence when the prediction is a number the interval width is exactly
`2 * 1.96 * rmse`, a zero RMSE collapses the interval onto the prediction,
and an absent `model_errors.json` gives RMSE 0 for every backend while the
run still produces all its rows. -/
theorem C1_confidence_intervals (env : OrchEnv) :
    ∀ c ∈ saveCalls env, ∃ base,
      (base = "LinearRegression" ∨ base = "XGBoost" ∨ base = "LSTM") ∧
      c.time = env.latestTs ∧
      c.modelName = mkModelName base c.targetHours ∧
      (env.errorsFile = none → rmseFor (modelErrorsOf env) base = 0) ∧
      (∀ p, c.predictionLogReturn = some p →
        c.ciLow = some (p - Z_SCORE_95 * rmseFor (modelErrorsOf env) base) ∧
        c.ciHigh = some (p + Z_SCORE_95 * rmseFor (modelErrorsOf env) base) ∧
        (∃ lo hi, c.ciLow = some lo ∧ c.ciHigh = some hi ∧
          hi - lo = 2 * Z_SCORE_95 * rmseFor (modelErrorsOf env) base ∧
          (rmseFor (modelErrorsOf env) base = 0 → lo = p ∧ hi = p))) := by
  intro c hc
  rw [saveCalls] at hc
  rcases List.mem_append.mp hc with hc2 | hlstm
  · rcases List.mem_append.mp hc2 with hlr | hxgb
    · obtain ⟨h, _, hcc⟩ := List.mem_map.mp hlr
      refine ⟨"LinearRegression", Or.inl rfl, ?_, ?_, ?_, ?_⟩
      · rw [← hcc]; rfl
      · rw [← hcc]; rfl
      · intro hnone
        simp [modelErrorsOf, hnone, rmseFor]
      · intro p hp
        subst hcc
        obtain ⟨hlo, hhi⟩ := callForPointModel_ci env "LinearRegression" "LR" h
        rw [hlo, hhi, hp]
        refine ⟨rfl, rfl, _, _, rfl, rfl, by ring, ?_⟩
        intro h0
        rw [h0]
        constructor <;> ring
    · obtain ⟨h, _, hcc⟩ := List.mem_map.mp hxgb
      refine ⟨"XGBoost", Or.inr (Or.inl rfl), ?_, ?_, ?_, ?_⟩
      · rw [← hcc]; rfl
      · rw [← hcc]; rfl
      · intro hnone
        simp [modelErrorsOf, hnone, rmseFor]
      · intro p hp
        subst hcc
        obtain ⟨hlo, hhi⟩ := callForPointModel_ci env "XGBoost" "XGB" h
        rw [hlo, hhi, hp]
        refine ⟨rfl, rfl, _, _, rfl, rfl, by ring, ?_⟩
        intro h0
        rw [h0]
        constructor <;> ring
  · obtain ⟨ht, hname, hlo, hhi⟩ := callsForLstm_ci env c hlstm
    refine ⟨"LSTM", Or.inr (Or.inr rfl), ht, hname, ?_, ?_⟩
    · intro hnone
      simp [modelErrorsOf, hnone, rmseFor]
    · intro p hp
      rw [hlo, hhi, hp]
      refine ⟨rfl, rfl, _, _, rfl, rfl, by ring, ?_⟩
      intro h0
      rw [h0]
      constructor <;> ring

/-- Witness for the confidence-interval theorem at a concrete environment
and its first save call. -/
theorem C1_confidence_intervals_witness :
    (callForPointModel exampleEnvOk "LinearRegression" "LR" 6
        ∈ saveCalls exampleEnvOk) ∧
    (∃ base,
      (base = "LinearRegression" ∨ base = "XGBoost" ∨ base = "LSTM") ∧
      (callForPointModel exampleEnvOk "LinearRegression" "LR" 6).time
          = exampleEnvOk.latestTs ∧
      (callForPointModel exampleEnvOk "LinearRegression" "LR" 6).modelName
          = mkModelName base
              (callForPointModel exampleEnvOk "LinearRegression" "LR" 6).targetHours ∧
      (exampleEnvOk.errorsFile = none →
        rmseFor (modelErrorsOf exampleEnvOk) base = 0) ∧
      (∀ p, (callForPointModel exampleEnvOk "LinearRegression" "LR" 6).predictionLogReturn
            = some p →
        (callForPointModel exampleEnvOk "LinearRegression" "LR" 6).ciLow
            = some (p - Z_SCORE_95 * rmseFor (modelErrorsOf exampleEnvOk) base) ∧
        (callForPointModel exampleEnvOk "LinearRegression" "LR" 6).ciHigh
            = some (p + Z_SCORE_95 * rmseFor (modelErrorsOf exampleEnvOk) base) ∧
        (∃ lo hi,
          (callForPointModel exampleEnvOk "LinearRegression" "LR" 6).ciLow = some lo ∧
          (callForPointModel exampleEnvOk "LinearRegression" "LR" 6).ciHigh = some hi ∧
          hi - lo = 2 * Z_SCORE_95 * rmseFor (modelErrorsOf exampleEnvOk) base ∧
          (rmseFor (modelErrorsOf exampleEnvOk) base = 0 → lo = p ∧ hi = p)))) :=
  have hmem : callForPointModel exampleEnvOk "LinearRegression" "LR" 6
      ∈ saveCalls exampleEnvOk :=
    List.mem_append.mpr (Or.inl (List.mem_append.mpr (Or.inl
      (List.mem_map.mpr ⟨6, by simp [TARGET_HORIZONS], rfl⟩))))
  ⟨hmem, C1_confidence_intervals exampleEnvOk _ hmem⟩

/-! ## Missing artifacts and insufficient history (C7) -/

/-- Counterexample to the claim that a failed (backend, horizon) unit
yields no persisted forecast row: in an environment where the
LinearRegression artifact for the 6-hour horizon is missing and the LSTM
has fewer rows than its window, the run still persists a row for each such
unit, carrying NaN prediction and NaN bounds. -/
theorem C7_counterexample :
    exampleEnvMissing.lrModel 6 = none ∧
    exampleEnvMissing.nRows < LSTM_TIME_STEPS ∧
    (∃ c ∈ run_prediction_table exampleEnvMissing (fun _ => false) [],
      c.modelName = "LinearRegression_log_return_6h" ∧ c.targetHours = 6 ∧
      c.predictionLogReturn = none ∧ c.ciLow = none ∧ c.ciHigh = none) ∧
    (∃ c ∈ run_prediction_table exampleEnvMissing (fun _ => false) [],
      c.modelName = "LSTM_log_return_24h" ∧ c.targetHours = 24 ∧
      c.predictionLogReturn = none ∧ c.ciLow = none ∧ c.ciHigh = none) := by
  refine ⟨rfl, by decide, ?_, ?_⟩
  · refine ⟨callForPointModel exampleEnvMissing "LinearRegression" "LR" 6,
      ?_, rfl, rfl, rfl, rfl, rfl⟩
    rw [run_table_no_failures]
    exact List.mem_append.mpr (Or.inl (List.mem_append.mpr (Or.inl
      (List.mem_map.mpr ⟨6, by simp [TARGET_HORIZONS], rfl⟩))))
  · have henum : TARGET_HORIZONS.enum = [(0, 6), (1, 12), (2, 24)] := rfl
    have hmem : ∃ c ∈ callsForLstm exampleEnvMissing,
        c.modelName = "LSTM_log_return_24h" ∧ c.targetHours = 24 ∧
        c.predictionLogReturn = none ∧ c.ciLow = none ∧ c.ciHigh = none := by
      simp only [callsForLstm, henum, List.map_cons, List.map_nil]
      exact ⟨_, List.mem_cons_of_mem _ (List.mem_cons_of_mem _
        (List.mem_cons_self _ _)), rfl, rfl, rfl, rfl, rfl⟩
    obtain ⟨c, hc, hrest⟩ := hmem
    refine ⟨c, ?_, hrest⟩
    rw [run_table_no_failures]
    exact List.mem_append.mpr (Or.inr hc)

/-- Amended C7: when a backend artifact or scaler is missing, or a
sequence backend has too little history, the affected (backend, horizon)
unit still produces a persisted row — holding NaN prediction and NaN
bounds — rather than being skipped; all nine (backend, horizon) units
always submit their writes, so the other pairs persist their computed
results. -/
theorem C7_failed_units_write_nan_rows (env : OrchEnv) :
    (∀ h ∈ TARGET_HORIZONS,
      (env.lrModel h = none →
        (callForPointModel env "LinearRegression" "LR" h).predictionLogReturn
            = none ∧
        (callForPointModel env "LinearRegression" "LR" h).ciLow = none ∧
        (callForPointModel env "LinearRegression" "LR" h).ciHigh = none ∧
        callForPointModel env "LinearRegression" "LR" h ∈ saveCalls env) ∧
      (env.xgbModel h = none →
        (callForPointModel env "XGBoost" "XGB" h).predictionLogReturn
            = none ∧
        (callForPointModel env "XGBoost" "XGB" h).ciLow = none ∧
        (callForPointModel env "XGBoost" "XGB" h).ciHigh = none ∧
        callForPointModel env "XGBoost" "XGB" h ∈ saveCalls env)) ∧
    ((env.lstmModel = none ∨ env.nRows < LSTM_TIME_STEPS ∨
        env.lstmScalerOk = false) →
      ∀ c ∈ callsForLstm env,
        c.predictionLogReturn = none ∧ c.ciLow = none ∧ c.ciHigh = none) ∧
    run_prediction_table env (fun _ => false) [] = saveCalls env ∧
    (saveCalls env).length = 9 := by
  refine ⟨?_, ?_, run_table_no_failures env, rfl⟩
  · intro h hh
    constructor
    · intro hmiss
      have hload : load_model_and_predict env "LR" h = [none] := by
        simp [load_model_and_predict, hmiss]
      refine ⟨?_, ?_, ?_, ?_⟩
      · show (match (load_model_and_predict env "LR" h).head? with
          | some (some p) => some p
          | _ => none) = none
        rw [hload]
        rfl
      · show Option.map _ (match (load_model_and_predict env "LR" h).head? with
          | some (some p) => some p
          | _ => none) = none
        rw [hload]
        rfl
      · show Option.map _ (match (load_model_and_predict env "LR" h).head? with
          | some (some p) => some p
          | _ => none) = none
        rw [hload]
        rfl
      · exact List.mem_append.mpr (Or.inl (List.mem_append.mpr (Or.inl
          (List.mem_map.mpr ⟨h, hh, rfl⟩))))
    · intro hmiss
      have hload : load_model_and_predict env "XGB" h = [none] := by
        simp [load_model_and_predict, hmiss]
      refine ⟨?_, ?_, ?_, ?_⟩
      · show (match (load_model_and_predict env "XGB" h).head? with
          | some (some p) => some p
          | _ => none) = none
        rw [hload]
        rfl
      · show Option.map _ (match (load_model_and_predict env "XGB" h).head? with
          | some (some p) => some p
          | _ => none) = none
        rw [hload]
        rfl
      · show Option.map _ (match (load_model_and_predict env "XGB" h).head? with
          | some (some p) => some p
          | _ => none) = none
        rw [hload]
        rfl
      · exact List.mem_append.mpr (Or.inl (List.mem_append.mpr (Or.inr
          (List.mem_map.mpr ⟨h, hh, rfl⟩))))
  · intro hfail c hc
    have hpreds : load_model_and_predict env "LSTM" 0 = [none, none, none] := by
      rcases hfail with hm | hn | hs
      · simp [load_model_and_predict, hm]
      · rcases hvs : env.lstmModel with _ | vs
        · simp [load_model_and_predict, hvs]
        · simp [load_model_and_predict, hvs, hn]
      · rcases hvs : env.lstmModel with _ | vs
        · simp [load_model_and_predict, hvs]
        · by_cases hn2 : env.nRows < LSTM_TIME_STEPS
          · simp [load_model_and_predict, hvs, hn2]
          · simp [load_model_and_predict, hvs, hn2, hs]
    have henum : TARGET_HORIZONS.enum = [(0, 6), (1, 12), (2, 24)] := rfl
    simp only [callsForLstm, henum, List.map_cons, List.map_nil,
      List.mem_cons, List.not_mem_nil, or_false] at hc
    rcases hc with rfl | rfl | rfl <;> rw [hpreds] <;> exact ⟨rfl, rfl, rfl⟩

/-- Witness: the amended statement applied to the concrete environment
with a missing LinearRegression artifact and an undersized LSTM window. -/
theorem C7_failed_units_witness :
    (6 ∈ TARGET_HORIZONS) ∧
    exampleEnvMissing.lrModel 6 = none ∧
    (exampleEnvMissing.lstmModel = none ∨
      exampleEnvMissing.nRows < LSTM_TIME_STEPS ∨
      exampleEnvMissing.lstmScalerOk = false) ∧
    ((callForPointModel exampleEnvMissing "LinearRegression" "LR" 6).predictionLogReturn
        = none ∧
      (callForPointModel exampleEnvMissing "LinearRegression" "LR" 6).ciLow = none ∧
      (callForPointModel exampleEnvMissing "LinearRegression" "LR" 6).ciHigh = none ∧
      callForPointModel exampleEnvMissing "LinearRegression" "LR" 6
        ∈ saveCalls exampleEnvMissing) ∧
    (∀ c ∈ callsForLstm exampleEnvMissing,
      c.predictionLogReturn = none ∧ c.ciLow = none ∧ c.ciHigh = none) :=
  have hmain := C7_failed_units_write_nan_rows exampleEnvMissing
  ⟨by decide, rfl, Or.inr (Or.inl (by decide)),
    (hmain.1 6 (by decide)).1 rfl,
    hmain.2.1 (Or.inr (Or.inl (by decide)))⟩

/-! ## Merge engine failure semantics (C8) -/

/-- Counterexample to the claim that an auxiliary source returning no rows
leaves its columns present with all-zero values: with an empty open
interest frame and an empty SP500 frame the merge succeeds, but the
auxiliary columns are absent from the output (`hasOI = hasSP = false`,
no column data), not all-zero. -/
theorem C8_counterexample :
    ∃ out, merge_all_data [exampleBar] [] [] = some out ∧
      out.hasOI = false ∧ out.hasSP = false ∧
      out.oiCol = [] ∧ out.spClose = [] ∧ out.bars = [exampleBar] :=
  ⟨{ bars := [exampleBar], hasOI := false, oiCol := [], hasSP := false,
      spClose := [] }, rfl, rfl, rfl, rfl, rfl, rfl⟩

/-- Amended C8: the merge produces no frame exactly when the OHLCV source
returns no rows; an auxiliary source returning no rows still lets the
merge succeed, but its columns are then absent from the output (they are
all-zero only when the source returns rows that never match the OHLCV
axis). -/
theorem C8_merge_failure_semantics (ohlcv : List OhlcvRaw)
    (oi sp : List (ℕ × ℚ)) :
    (merge_all_data ohlcv oi sp = none ↔ ohlcv = []) ∧
    (∀ out, merge_all_data ohlcv oi sp = some out →
      (out.hasOI = true ↔ oi ≠ []) ∧ (out.hasSP = true ↔ sp ≠ [])) := by
  by_cases hoh : ohlcv = []
  · constructor
    · simp [merge_all_data, hoh]
    · intro out hout
      rw [merge_all_data, if_pos hoh] at hout
      cases hout
  · by_cases hsp : sp = []
    · have hout0 : merge_all_data ohlcv oi sp
          = some
            { bars := Merge.dedupKeepFirst ohlcv
              hasOI := decide (oi ≠ [])
              oiCol := if decide (oi ≠ []) then
                  (Merge.dedupKeepFirst ohlcv).map
                    (fun b => Merge.alookup b.tsMs oi)
                else []
              hasSP := false
              spClose := [] } := by
        rw [merge_all_data, if_neg hoh]
        simp only [hsp]
        rfl
      constructor
      · rw [hout0]
        simp [hoh]
      · intro out hout
        rw [hout0] at hout
        have := Option.some_injective _ hout
        rw [← this]
        constructor
        · simp
        · simp [hsp]
    · have hspb : decide (sp ≠ []) = true := by simp [hsp]
      have hout0 : merge_all_data ohlcv oi sp
          = some
            { bars := (Merge.dedupKeepFirst ohlcv).drop
                (Merge.leadDropCount (Merge.dedupKeepFirst ohlcv))
              hasOI := decide (oi ≠ [])
              oiCol := (if decide (oi ≠ []) then
                  (Merge.dedupKeepFirst ohlcv).map
                    (fun b => Merge.alookup b.tsMs oi)
                else []).drop
                  (Merge.leadDropCount (Merge.dedupKeepFirst ohlcv))
              hasSP := true
              spClose := ((Merge.ffill ((Merge.dedupKeepFirst ohlcv).map
                  (fun b => Merge.alookup b.tsMs sp))).map
                    (fun x => x.getD 0)).drop
                  (Merge.leadDropCount (Merge.dedupKeepFirst ohlcv)) } := by
        rw [merge_all_data, if_neg hoh]
        simp only [hspb]
        rfl
      constructor
      · rw [hout0]
        simp [hoh]
      · intro out hout
        rw [hout0] at hout
        have := Option.some_injective _ hout
        rw [← this]
        constructor
        · simp
        · simp [hsp]

/-- Witness: the merge semantics applied at one concrete bar with both
auxiliary sources empty. -/
theorem C8_merge_failure_witness :
    (merge_all_data [exampleBar] [] [] = none ↔ ([exampleBar] : List OhlcvRaw) = []) ∧
    (merge_all_data [exampleBar] [] []
        = some { bars := [exampleBar]
                 hasOI := false
                 oiCol := []
                 hasSP := false
                 spClose := [] }) ∧
    (({ bars := [exampleBar]
        hasOI := false
        oiCol := []
        hasSP := false
        spClose := [] } : MergedFrame).hasOI = true ↔ ([] : List (ℕ × ℚ)) ≠ []) :=
  ⟨(C8_merge_failure_semantics [exampleBar] [] []).1, rfl,
    ((C8_merge_failure_semantics [exampleBar] [] []).2 _ rfl).1⟩

/-- Witness: the idempotence part of the incremental-append theorem at a
concrete store and feature sets. -/
theorem C5_incremental_append_witness :
    lastTimestampOf exampleStore = some 2 ∧
    (∀ r ∈ exampleFeats2, r.ts ≤ 2 ∨ ∃ q ∈ exampleFeats1, q.ts = r.ts) ∧
    (lastTimestampOf (incrementalAppend 2 exampleFeats1 exampleStore)
        = some (maxTs (incrementalAppend 2 exampleFeats1 exampleStore)) ∧
      exampleFeats2.filter
          (fun r => maxTs (incrementalAppend 2 exampleFeats1 exampleStore) < r.ts)
        = [] ∧
      incrementalAppend (maxTs (incrementalAppend 2 exampleFeats1 exampleStore))
          exampleFeats2 (incrementalAppend 2 exampleFeats1 exampleStore)
        = incrementalAppend 2 exampleFeats1 exampleStore) :=
  ⟨by decide, by decide,
    (C5_incremental_append 2 exampleFeats1 exampleFeats2 exampleStore).2.2.2
      (by decide) (by decide)⟩

/-! ## Causality of the technical indicators (C3) -/

namespace Features

theorem ewmRec_congr (k : ℚ) {x y : ℕ → Option ℚ} :
    ∀ i, (∀ j, j ≤ i → x j = y j) → ewmRec k x i = ewmRec k y i := by
  intro i
  induction i with
  | zero =>
    intro h
    show x 0 = y 0
    exact h 0 le_rfl
  | succ i ih =>
    intro h
    show (match ewmRec k x i, x (i + 1) with
      | none, v => v
      | some p, none => some p
      | some p, some v => some ((1 - k) * p + k * v))
      = (match ewmRec k y i, y (i + 1) with
      | none, v => v
      | some p, none => some p
      | some p, some v => some ((1 - k) * p + k * v))
    rw [ih (fun j hj => h j (le_trans hj (Nat.le_succ i))),
      h (i + 1) le_rfl]

theorem emaSeed_congr (l : ℕ) {x y : ℕ → Option ℚ}
    (h : ∀ j, j < l → x j = y j) : emaSeed l x = emaSeed l y := by
  have : (List.range l).filterMap x = (List.range l).filterMap y :=
    List.filterMap_congr (fun j hj => h j (List.mem_range.mp hj))
  rw [emaSeed, emaSeed, this]

theorem emaInput_congr (l : ℕ) {x y : ℕ → Option ℚ} {i : ℕ}
    (h : ∀ j, j ≤ i → x j = y j) :
    ∀ j, j ≤ i → emaInput l x j = emaInput l y j := by
  intro j hj
  rw [emaInput, emaInput]
  by_cases h1 : j < l - 1
  · rw [if_pos h1, if_pos h1]
  · rw [if_neg h1, if_neg h1]
    by_cases h2 : j = l - 1
    · rw [if_pos h2, if_pos h2]
      apply emaSeed_congr
      intro j2 hj2
      apply h
      have : j2 ≤ l - 1 := Nat.le_sub_one_of_lt hj2
      exact le_trans (h2 ▸ this) hj
    · rw [if_neg h2, if_neg h2]
      exact h j hj

theorem emaPT_congr (l : ℕ) {x y : ℕ → Option ℚ} {i : ℕ}
    (h : ∀ j, j ≤ i → x j = y j) : emaPT l x i = emaPT l y i :=
  ewmRec_congr _ i (emaInput_congr l h)

theorem macdLine_congr {x y : ℕ → Option ℚ} {i : ℕ}
    (h : ∀ j, j ≤ i → x j = y j) : macdLine x i = macdLine y i := by
  rw [macdLine, macdLine, emaPT_congr 12 h, emaPT_congr 26 h]

theorem diffCol_congr {x y : ℕ → Option ℚ} {i : ℕ}
    (h : ∀ j, j ≤ i → x j = y j) :
    ∀ j, j ≤ i → diffCol x j = diffCol y j := by
  intro j hj
  rw [diffCol, diffCol]
  by_cases h0 : j = 0
  · rw [if_pos h0, if_pos h0]
  · rw [if_neg h0, if_neg h0, h j hj,
      h (j - 1) (le_trans (Nat.sub_le j 1) hj)]

theorem rmaAux_congr (a : ℚ) {x y : ℕ → Option ℚ} :
    ∀ i, (∀ j, j ≤ i → x j = y j) → rmaAux a x i = rmaAux a y i := by
  intro i
  induction i with
  | zero =>
    intro h
    show (match x 0 with
      | some v => (v, 1, 1)
      | none => ((0 : ℚ), (0 : ℚ), (0 : ℕ)))
      = (match y 0 with
      | some v => (v, 1, 1)
      | none => ((0 : ℚ), (0 : ℚ), (0 : ℕ)))
    rw [h 0 le_rfl]
  | succ i ih =>
    intro h
    show (let s := rmaAux a x i
      match x (i + 1) with
      | some v => ((1 - a) * s.1 + v, (1 - a) * s.2.1 + 1, s.2.2 + 1)
      | none => ((1 - a) * s.1, (1 - a) * s.2.1, s.2.2))
      = (let s := rmaAux a y i
      match y (i + 1) with
      | some v => ((1 - a) * s.1 + v, (1 - a) * s.2.1 + 1, s.2.2 + 1)
      | none => ((1 - a) * s.1, (1 - a) * s.2.1, s.2.2))
    rw [ih (fun j hj => h j (le_trans hj (Nat.le_succ i))),
      h (i + 1) le_rfl]

theorem rmaPT_congr (l : ℕ) {x y : ℕ → Option ℚ} {i : ℕ}
    (h : ∀ j, j ≤ i → x j = y j) : rmaPT l x i = rmaPT l y i := by
  rw [rmaPT, rmaPT, rmaAux_congr _ i h]

theorem rsiCol14_congr {x y : ℕ → Option ℚ} {i : ℕ}
    (h : ∀ j, j ≤ i → x j = y j) : rsiCol14 x i = rsiCol14 y i := by
  rw [rsiCol14, rsiCol14]
  rw [rmaPT_congr 14 (x := fun j => (diffCol x j).map (fun d => max d 0))
    (y := fun j => (diffCol y j).map (fun d => max d 0))
    (fun j hj => by simp only [diffCol_congr h j hj])]
  rw [rmaPT_congr 14 (x := fun j => (diffCol x j).map (fun d => min d 0))
    (y := fun j => (diffCol y j).map (fun d => min d 0))
    (fun j hj => by simp only [diffCol_congr h j hj])]

theorem trueRangeCol_congr {h1 l1 c1 h2 l2 c2 : ℕ → Option ℚ} {i : ℕ}
    (hh : ∀ j, j ≤ i → h1 j = h2 j) (hl : ∀ j, j ≤ i → l1 j = l2 j)
    (hc : ∀ j, j ≤ i → c1 j = c2 j) :
    ∀ j, j ≤ i → trueRangeCol h1 l1 c1 j = trueRangeCol h2 l2 c2 j := by
  intro j hj
  rw [trueRangeCol, trueRangeCol]
  by_cases h0 : j = 0
  · rw [if_pos h0, if_pos h0]
  · rw [if_neg h0, if_neg h0]
    rw [hh j hj, hl j hj, hc (j - 1) (le_trans (Nat.sub_le j 1) hj)]

theorem atrCol14_congr {h1 l1 c1 h2 l2 c2 : ℕ → Option ℚ} {i : ℕ}
    (hh : ∀ j, j ≤ i → h1 j = h2 j) (hl : ∀ j, j ≤ i → l1 j = l2 j)
    (hc : ∀ j, j ≤ i → c1 j = c2 j) :
    atrCol14 h1 l1 c1 i = atrCol14 h2 l2 c2 i := by
  rw [atrCol14, atrCol14]
  exact rmaPT_congr 14 (trueRangeCol_congr hh hl hc)

/-- Agreement of raw bars strictly below `t` yields agreement of the
shifted series up to `t`. -/
theorem shift1_agree {f g : ℕ → ℚ} {t : ℕ}
    (h : ∀ j, j < t → f j = g j) : ∀ j, j ≤ t → shift1 f j = shift1 g j := by
  intro j hj
  rw [shift1, shift1]
  by_cases h0 : j = 0
  · rw [if_pos h0, if_pos h0]
  · rw [if_neg h0, if_neg h0, h (j - 1)]
    exact lt_of_lt_of_le (Nat.sub_lt (Nat.pos_of_ne_zero h0) one_pos) hj

end Features

/-- C3: the technical-indicator features are computed on the one-bar
shifted close / high / low: their value at `t` depends only on bars
strictly before `t` (frames agreeing below `t` give equal indicator
values at `t`); and the one-bar lag is real — on a concrete frame each
indicator value differs from the same indicator computed on the unshifted
series. -/
theorem C3_indicator_one_bar_lag :
    (∀ (df dg : MergedBars) (t : ℕ),
      (∀ j, j < t → df.cl j = dg.cl j) →
      (∀ j, j < t → df.hi j = dg.hi j) →
      (∀ j, j < t → df.lo j = dg.lo j) →
      Features.macdCol df t = Features.macdCol dg t ∧
      Features.rsiCol df t = Features.rsiCol dg t ∧
      Features.atrNormCol df t = Features.atrNormCol dg t) ∧
    (Features.macdCol spikeDf 25
        ≠ Features.macdLine (fun j => some (spikeDf.cl j)) 25 ∧
      Features.rsiCol spikeDf 15
        ≠ Features.rsiCol14 (fun j => some (spikeDf.cl j)) 15 ∧
      Features.atrNormCol spikeDf 15
        ≠ (Features.atrCol14 (fun j => some (spikeDf.hi j))
            (fun j => some (spikeDf.lo j)) (fun j => some (spikeDf.cl j))
            15).bind (fun a => fdivQ a (spikeDf.cl 15))) := by
  constructor
  · intro df dg t hcl hhi hlo
    have hpc : ∀ j, j ≤ t → Features.prevClCol df j = Features.prevClCol dg j :=
      Features.shift1_agree hcl
    refine ⟨Features.macdLine_congr hpc, Features.rsiCol14_congr hpc, ?_⟩
    rw [Features.atrNormCol, Features.atrNormCol]
    rw [Features.atrCol14_congr (Features.shift1_agree hhi)
      (Features.shift1_agree hlo) (Features.shift1_agree hcl) (i := t),
      hpc t le_rfl]
  · refine ⟨?_, ?_, ?_⟩
    · have h12 : List.range 12 = [0,1,2,3,4,5,6,7,8,9,10,11] := rfl
      have h26 : List.range 26 =
        [0,1,2,3,4,5,6,7,8,9,10,11,12,13,14,15,16,17,18,19,
          20,21,22,23,24,25] := rfl
      simp only [Features.macdCol, Features.macdLine, Features.emaPT,
        Features.ewmRec, Features.emaInput, Features.emaSeed,
        Features.prevClCol, Features.shift1, spikeDf, Features.osub, h12, h26,
        List.filterMap_cons, List.filterMap_nil]
      norm_num [listMean]
    · simp only [Features.rsiCol, Features.rsiCol14, Features.rmaPT,
        Features.rmaAux, Features.diffCol, Features.prevClCol,
        Features.shift1, spikeDf]
      norm_num [fdivQ, abs_div, abs_of_pos, abs_of_nonneg]
    · simp only [Features.atrNormCol, Features.atrCol14, Features.rmaPT,
        Features.rmaAux, Features.trueRangeCol, Features.prevClCol,
        Features.shift1, spikeDf, Option.bind]
      norm_num [fdivQ, List.filterMap_cons, List.filterMap_nil, List.foldl,
        max_def, List.max?]

/-- Witness: the causality part applied to two concrete frames agreeing
strictly below bar 50. -/
theorem C3_indicator_one_bar_lag_witness :
    (∀ j, j < 50 → exampleDf.cl j = exampleDfMod.cl j) ∧
    (∀ j, j < 50 → exampleDf.hi j = exampleDfMod.hi j) ∧
    (∀ j, j < 50 → exampleDf.lo j = exampleDfMod.lo j) ∧
    (Features.macdCol exampleDf 50 = Features.macdCol exampleDfMod 50 ∧
      Features.rsiCol exampleDf 50 = Features.rsiCol exampleDfMod 50 ∧
      Features.atrNormCol exampleDf 50 = Features.atrNormCol exampleDfMod 50) := by
  have hcl : ∀ j, j < 50 → exampleDf.cl j = exampleDfMod.cl j := by
    intro j hj
    show exampleDf.cl j = if j < 50 then exampleDf.cl j else 7
    rw [if_pos hj]
  have hhi : ∀ j, j < 50 → exampleDf.hi j = exampleDfMod.hi j := by
    intro j hj
    show exampleDf.hi j = if j < 50 then exampleDf.hi j else 9
    rw [if_pos hj]
  have hlo : ∀ j, j < 50 → exampleDf.lo j = exampleDfMod.lo j := by
    intro j hj
    show exampleDf.lo j = if j < 50 then exampleDf.lo j else 8
    rw [if_pos hj]
  exact ⟨hcl, hhi, hlo,
    C3_indicator_one_bar_lag.1 exampleDf exampleDfMod 50 hcl hhi hlo⟩

/-! ## Presence (non-NaN) structure of the feature columns -/

namespace Features

theorem fdivQ_isSome {a b : ℚ} (hb : b ≠ 0) : (fdivQ a b).isSome = true := by
  rw [fdivQ, if_neg (fun hc => hb hc.2)]
  rfl

theorem fdivQ_eq {a b : ℚ} (hb : b ≠ 0) : fdivQ a b = some (a / b) := by
  rw [fdivQ, if_neg (fun hc => hb hc.2)]

theorem flogQ_eq (ops : RealOps) {x : ℚ} (hx : 0 ≤ x) :
    flogQ ops x = some (ops.lg x) := by
  rw [flogQ, if_neg (not_lt.mpr hx)]

theorem logReturnOf_eq (ops : RealOps) {x : ℕ → ℚ} {i : ℕ} (hi : i ≠ 0)
    (h1 : 0 < x (i - 1)) (h0 : 0 ≤ x i) :
    logReturnOf ops x i = some (ops.lg (x i / x (i - 1))) := by
  rw [logReturnOf, if_neg hi, fdivQ_eq (ne_of_gt h1), Option.some_bind]
  exact flogQ_eq ops (div_nonneg h0 (le_of_lt h1))

theorem logReturnOf_none (ops : RealOps) (x : ℕ → ℚ) :
    logReturnOf ops x 0 = none := by
  rw [logReturnOf, if_pos rfl]

theorem shift1_isSome {f : ℕ → ℚ} {i : ℕ} (hi : i ≠ 0) :
    shift1 f i = some (f (i - 1)) := by
  rw [shift1, if_neg hi]

theorem windowAt_length (x : ℕ → Option ℚ) (i w : ℕ) :
    (windowAt x i w).length = w := by
  rw [windowAt, List.length_map, List.length_range]

theorem windowAt_all_isSome {x : ℕ → Option ℚ} {i w : ℕ}
    (h : ∀ j, i + 1 - w ≤ j → j ≤ i → (x j).isSome = true)
    (hw : w ≤ i + 1) : (windowAt x i w).all Option.isSome = true := by
  rw [windowAt, List.all_eq_true]
  intro b hb
  rw [List.mem_map] at hb
  obtain ⟨j, hj, hbj⟩ := hb
  rw [List.mem_range] at hj
  rw [← hbj]
  apply h
  · exact Nat.le_add_right _ _
  · omega

theorem rollingAgg_eq {w : ℕ} {f : List ℚ → ℚ} {x : ℕ → Option ℚ} {i : ℕ}
    (hw : w ≤ i + 1) (hall : (windowAt x i w).all Option.isSome = true) :
    rollingAgg w f x i = some (f ((windowAt x i w).filterMap id)) := by
  rw [rollingAgg, if_pos hw]
  simp only [hall, if_pos]

theorem rollingAgg_isSome_iff {w : ℕ} {f : List ℚ → ℚ} {x : ℕ → Option ℚ}
    {i : ℕ} :
    (rollingAgg w f x i).isSome = true ↔
      w ≤ i + 1 ∧ (windowAt x i w).all Option.isSome = true := by
  rw [rollingAgg]
  by_cases hw : w ≤ i + 1
  · rw [if_pos hw]
    by_cases hall : (windowAt x i w).all Option.isSome = true
    · simp [hall, hw]
    · simp only [if_neg hall]
      simp [hall, hw]
  · rw [if_neg hw]
    simp [hw]

theorem ewmRec_isSome_iff (k : ℚ) (x : ℕ → Option ℚ) :
    ∀ i, (ewmRec k x i).isSome = true ↔ ∃ j, j ≤ i ∧ (x j).isSome = true := by
  intro i
  induction i with
  | zero =>
    constructor
    · intro h
      exact ⟨0, le_rfl, h⟩
    · intro h
      obtain ⟨j, hj, hx⟩ := h
      rw [Nat.le_zero.mp hj] at hx
      exact hx
  | succ i ih =>
    have hstep : ewmRec k x (i + 1)
        = (match ewmRec k x i, x (i + 1) with
          | none, v => v
          | some p, none => some p
          | some p, some v => some ((1 - k) * p + k * v)) := rfl
    constructor
    · intro h
      rw [hstep] at h
      rcases hprev : ewmRec k x i with _ | p
      · rw [hprev] at h
        exact ⟨i + 1, le_rfl, by
          rcases hx : x (i + 1) with _ | v
          · rw [hx] at h
            cases h
          · rfl⟩
      · obtain ⟨j, hj, hxj⟩ := ih.mp (by rw [hprev]; rfl)
        exact ⟨j, le_trans hj (Nat.le_succ i), hxj⟩
    · intro h
      obtain ⟨j, hj, hxj⟩ := h
      rw [hstep]
      rcases hprev : ewmRec k x i with _ | p
      · have hji : ¬(j ≤ i) := by
          intro hji
          have := ih.mpr ⟨j, hji, hxj⟩
          rw [hprev] at this
          cases this
        have hj1 : j = i + 1 := by omega
        rw [hj1] at hxj
        rcases hx : x (i + 1) with _ | v
        · rw [hx] at hxj
          cases hxj
        · rfl
      · rcases hx : x (i + 1) with _ | v
        · rfl
        · rfl

end Features

namespace Features

theorem emaSeed_isSome {l : ℕ} {x : ℕ → Option ℚ}
    (h : ∃ j, j < l ∧ (x j).isSome = true) : (emaSeed l x).isSome = true := by
  obtain ⟨j, hj, hx⟩ := h
  rcases hv : x j with _ | v
  · rw [hv] at hx
    cases hx
  · have hmem : v ∈ (List.range l).filterMap x :=
      List.mem_filterMap.mpr ⟨j, List.mem_range.mpr hj, hv⟩
    have hne : (List.range l).filterMap x ≠ [] := by
      intro hcon
      rw [hcon] at hmem
      cases hmem
    rw [emaSeed]
    simp only [List.isEmpty_iff, if_neg hne]
    rfl

theorem emaInput_isSome_seed {l : ℕ} {x : ℕ → Option ℚ}
    (_hl : 1 ≤ l) (h : ∃ j, j < l ∧ (x j).isSome = true) :
    (emaInput l x (l - 1)).isSome = true := by
  rw [emaInput, if_neg (lt_irrefl _), if_pos rfl]
  exact emaSeed_isSome h

theorem emaInput_none_lt {l : ℕ} {x : ℕ → Option ℚ} {j : ℕ}
    (hj : j < l - 1) : emaInput l x j = none := by
  rw [emaInput, if_pos hj]

/-- `pandas_ta.ema` is present from position `length - 1` on whenever some
input among the first `length` is present. -/
theorem emaPT_isSome {l : ℕ} {x : ℕ → Option ℚ} {i : ℕ} (hl : 1 ≤ l)
    (hi : l - 1 ≤ i) (h : ∃ j, j < l ∧ (x j).isSome = true) :
    (emaPT l x i).isSome = true := by
  rw [emaPT, ewmRec_isSome_iff]
  exact ⟨l - 1, hi, emaInput_isSome_seed hl h⟩

/-- `pandas_ta.ema` is NaN strictly before position `length - 1`. -/
theorem emaPT_none {l : ℕ} {x : ℕ → Option ℚ} {i : ℕ} (hi : i < l - 1) :
    emaPT l x i = none := by
  have h := ewmRec_isSome_iff (2 / ((l : ℚ) + 1)) (emaInput l x) i
  rcases hv : emaPT l x i with _ | v
  · rfl
  · rw [emaPT] at hv
    have : ∃ j, j ≤ i ∧ ((emaInput l x j).isSome = true) := by
      rw [← h, hv]
      rfl
    obtain ⟨j, hj, hs⟩ := this
    rw [emaInput_none_lt (lt_of_le_of_lt hj hi)] at hs
    cases hs

theorem osub_isSome {a b : Option ℚ} (ha : a.isSome = true)
    (hb : b.isSome = true) : (osub a b).isSome = true := by
  rcases a with _ | x
  · cases ha
  · rcases b with _ | y
    · cases hb
    · rfl

/-- The MACD line on a series whose inputs are present from position 1 is
present exactly from position 25. -/
theorem macdLine_isSome {x : ℕ → Option ℚ} {i : ℕ}
    (hx : (x 1).isSome = true) (hi : 25 ≤ i) :
    (macdLine x i).isSome = true := by
  rw [macdLine]
  apply osub_isSome
  · exact emaPT_isSome (by omega) (by omega) ⟨1, by omega, hx⟩
  · exact emaPT_isSome (by omega) (by omega) ⟨1, by omega, hx⟩

theorem macdLine_none {x : ℕ → Option ℚ} {i : ℕ} (hi : i < 25) :
    macdLine x i = none := by
  rw [macdLine, emaPT_none (by omega : i < 26 - 1)]
  rcases emaPT 12 x i with _ | v
  · rfl
  · rfl

/-- `find?` over an initial range locates the first index satisfying the
predicate. -/
theorem findRange_eq {n m : ℕ} {p : ℕ → Bool} (hm : m < n)
    (hlow : ∀ j, j < m → p j = false) (hp : p m = true) :
    (List.range n).find? p = some m := by
  have hsplit : List.range n = List.range m ++ (List.range (n - m)).map (m + ·) := by
    have : m + (n - m) = n := by omega
    rw [← List.range_add, this]
  rw [hsplit, List.find?_append]
  have h1 : (List.range m).find? p = none := by
    rw [List.find?_eq_none]
    intro j hj
    rw [List.mem_range] at hj
    rw [hlow j hj]
    intro hc
    cases hc
  rw [h1]
  have h2 : List.range (n - m) = 0 :: (List.range (n - m - 1)).map (· + 1) := by
    have : n - m = (n - m - 1) + 1 := by omega
    rw [this, List.range_succ_eq_map]
    simp [Function.comp]
  rw [h2]
  simp only [List.map_cons, List.find?_cons, Option.none_orElse]
  rw [show m + 0 = m from rfl, hp]
  rfl

end Features



namespace Features

/-- One-step unfolding of the RMA state at 0. -/
theorem rmaAux_zero (al : ℚ) (x : ℕ → Option ℚ) :
    rmaAux al x 0
      = (match x 0 with
        | some v => (v, 1, 1)
        | none => (0, 0, 0)) := rfl

theorem rmaAux_succ (al : ℚ) (x : ℕ → Option ℚ) (i : ℕ) :
    rmaAux al x (i + 1)
      = (match x (i + 1) with
        | some v => ((1 - al) * (rmaAux al x i).1 + v,
            (1 - al) * (rmaAux al x i).2.1 + 1, (rmaAux al x i).2.2 + 1)
        | none => ((1 - al) * (rmaAux al x i).1,
            (1 - al) * (rmaAux al x i).2.1, (rmaAux al x i).2.2)) := rfl

theorem rmaAux_den_nonneg {al : ℚ} (hal : 0 ≤ 1 - al) (x : ℕ → Option ℚ) :
    ∀ i, 0 ≤ (rmaAux al x i).2.1 := by
  intro i
  induction i with
  | zero =>
    rw [rmaAux_zero]
    rcases x 0 with _ | v
    · exact le_rfl
    · exact zero_le_one
  | succ i ih =>
    rw [rmaAux_succ]
    rcases x (i + 1) with _ | v
    · exact mul_nonneg hal ih
    · show 0 ≤ (1 - al) * (rmaAux al x i).2.1 + 1
      have := mul_nonneg hal ih
      linarith

theorem rmaAux_den_pos {al : ℚ} (hal : 0 < 1 - al) (x : ℕ → Option ℚ) :
    ∀ i, (∃ j, j ≤ i ∧ (x j).isSome = true) → 0 < (rmaAux al x i).2.1 := by
  intro i
  induction i with
  | zero =>
    intro h
    obtain ⟨j, hj, hx⟩ := h
    rw [Nat.le_zero.mp hj] at hx
    rw [rmaAux_zero]
    rcases hv : x 0 with _ | v
    · rw [hv] at hx
      cases hx
    · exact one_pos
  | succ i ih =>
    intro h
    rw [rmaAux_succ]
    rcases hv : x (i + 1) with _ | v
    · obtain ⟨j, hj, hx⟩ := h
      have hji : j ≤ i := by
        by_cases hj2 : j = i + 1
        · rw [hj2, hv] at hx
          cases hx
        · omega
      exact mul_pos hal (ih ⟨j, hji, hx⟩)
    · show 0 < (1 - al) * (rmaAux al x i).2.1 + 1
      have := mul_nonneg (le_of_lt hal) (rmaAux_den_nonneg (le_of_lt hal) x i)
      linarith

theorem rmaAux_num_nonneg {al : ℚ} (hal : 0 ≤ 1 - al) {x : ℕ → Option ℚ}
    (hpos : ∀ j v, x j = some v → 0 ≤ v) :
    ∀ i, 0 ≤ (rmaAux al x i).1 := by
  intro i
  induction i with
  | zero =>
    rw [rmaAux_zero]
    rcases hv : x 0 with _ | v
    · exact le_rfl
    · exact hpos 0 v hv
  | succ i ih =>
    rw [rmaAux_succ]
    rcases hv : x (i + 1) with _ | v
    · exact mul_nonneg hal ih
    · exact add_nonneg (mul_nonneg hal ih) (hpos (i + 1) v hv)

theorem rmaAux_num_pos {al : ℚ} (hal : 0 < 1 - al) {x : ℕ → Option ℚ}
    (hpos : ∀ j v, x j = some v → 0 ≤ v) :
    ∀ i, (∃ j v, j ≤ i ∧ x j = some v ∧ 0 < v) → 0 < (rmaAux al x i).1 := by
  intro i
  induction i with
  | zero =>
    intro h
    obtain ⟨j, v, hj, hx, hv⟩ := h
    rw [Nat.le_zero.mp hj] at hx
    rw [rmaAux_zero, hx]
    exact hv
  | succ i ih =>
    intro h
    obtain ⟨j, v, hj, hx, hv⟩ := h
    rw [rmaAux_succ]
    rcases hw : x (i + 1) with _ | w
    · have hji : j ≤ i := by
        by_cases hj2 : j = i + 1
        · rw [hj2, hw] at hx
          cases hx
        · omega
      exact mul_pos hal (ih ⟨j, v, hji, hx, hv⟩)
    · show 0 < (1 - al) * (rmaAux al x i).1 + w
      by_cases hji : j ≤ i
      · have h1 := mul_pos hal (ih ⟨j, v, hji, hx, hv⟩)
        have h2 := hpos (i + 1) w hw
        linarith
      · have hj1 : j = i + 1 := by omega
        rw [hj1, hw] at hx
        have hwv : w = v := by injection hx
        have h1 : 0 ≤ (1 - al) * (rmaAux al x i).1 :=
          mul_nonneg (le_of_lt hal) (rmaAux_num_nonneg (le_of_lt hal) hpos i)
        rw [hwv]
        linarith

theorem rmaAux_neg (al : ℚ) (x : ℕ → Option ℚ) :
    ∀ i, rmaAux al (fun j => (x j).map Neg.neg) i
      = (-(rmaAux al x i).1, (rmaAux al x i).2.1, (rmaAux al x i).2.2) := by
  intro i
  induction i with
  | zero =>
    rcases hv : x 0 with _ | v
    · rw [rmaAux_zero, rmaAux_zero, hv]
      show ((0 : ℚ), (0 : ℚ), (0 : ℕ)) = (-(0 : ℚ), (0 : ℚ), (0 : ℕ))
      norm_num
    · rw [rmaAux_zero, rmaAux_zero, hv]
      rfl
  | succ i ih =>
    rw [rmaAux_succ, rmaAux_succ, ih]
    rcases hv : x (i + 1) with _ | v
    · refine Prod.ext ?_ rfl
      show (1 - al) * -(rmaAux al x i).1 = -((1 - al) * (rmaAux al x i).1)
      ring
    · refine Prod.ext ?_ rfl
      show (1 - al) * -(rmaAux al x i).1 + -v
        = -((1 - al) * (rmaAux al x i).1 + v)
      ring

end Features

namespace Features

theorem rmaAux_count_ge (al : ℚ) {x : ℕ → Option ℚ} {a : ℕ} :
    ∀ i, (∀ j, a ≤ j → j ≤ i → (x j).isSome = true) →
      i + 1 - a ≤ (rmaAux al x i).2.2 := by
  intro i
  induction i with
  | zero =>
    intro h
    by_cases ha : a = 0
    · have hx := h 0 (by omega) le_rfl
      rcases hv : x 0 with _ | v
      · rw [hv] at hx
        cases hx
      · rw [rmaAux_zero, hv]
        show 0 + 1 - a ≤ 1
        omega
    · omega
  | succ i ih =>
    intro h
    by_cases ha : a ≤ i + 1
    · have hx := h (i + 1) ha le_rfl
      rcases hv : x (i + 1) with _ | v
      · rw [hv] at hx
        cases hx
      · rw [rmaAux_succ, hv]
        show i + 1 + 1 - a ≤ (rmaAux al x i).2.2 + 1
        have := ih (fun j hj hji => h j hj (le_trans hji (Nat.le_succ i)))
        omega
    · omega

/-- `pandas_ta.rma` output when at least `length` inputs are present. -/
theorem rmaPT_eq {l : ℕ} {x : ℕ → Option ℚ} {i : ℕ}
    (h : l ≤ (rmaAux (1 / (l : ℚ)) x i).2.2) :
    rmaPT l x i
      = some ((rmaAux (1 / (l : ℚ)) x i).1 / (rmaAux (1 / (l : ℚ)) x i).2.1) := by
  rw [rmaPT]
  simp only [if_neg (not_lt.mpr h)]

end Features


namespace Features

theorem max?_isSome_of_ne_nil {l : List ℚ} (h : l ≠ []) :
    (l.max?).isSome = true := by
  rcases hv : l.max? with _ | v
  · exact absurd (List.max?_eq_none_iff.mp hv) h
  · rfl

theorem prevClCol_eq {df : MergedBars} {i : ℕ} (hi : i ≠ 0) :
    prevClCol df i = some (df.cl (i - 1)) := shift1_isSome hi

theorem diffCol_prevCl_eq (df : MergedBars) {j : ℕ} (hj : 2 ≤ j) :
    diffCol (prevClCol df) j = some (df.cl (j - 1) - df.cl (j - 2)) := by
  rw [diffCol, if_neg (by omega : ¬(j = 0)), prevClCol_eq (by omega : j ≠ 0),
    prevClCol_eq (by omega : j - 1 ≠ 0)]
  have h2 : j - 1 - 1 = j - 2 := by omega
  rw [h2]

theorem min_eq_neg_max (d : ℚ) : min d 0 = -max (-d) 0 := by
  rcases le_total d 0 with h | h
  · rw [min_eq_left h, max_eq_left (by linarith : (0 : ℚ) ≤ -d), neg_neg]
  · rw [min_eq_right h, max_eq_right (by linarith : -d ≤ (0 : ℚ)), neg_zero]

theorem rsiCol_isSome (df : MergedBars) {i : ℕ} (hi : 15 ≤ i)
    (hne : df.cl 1 ≠ df.cl 0) : (rsiCol df i).isSome = true := by
  rw [rsiCol, rsiCol14]
  have hall : ∀ j, 2 ≤ j → j ≤ i →
      (diffCol (prevClCol df) j).isSome = true := by
    intro j h2 _
    rw [diffCol_prevCl_eq df h2]
    rfl
  have hposall : ∀ j, 2 ≤ j → j ≤ i →
      ((fun j => (diffCol (prevClCol df) j).map (fun d => max d 0)) j).isSome
        = true := by
    intro j h2 hji
    rw [Option.isSome_map']
    exact hall j h2 hji
  have hnegall : ∀ j, 2 ≤ j → j ≤ i →
      ((fun j => (diffCol (prevClCol df) j).map (fun d => min d 0)) j).isSome
        = true := by
    intro j h2 hji
    rw [Option.isSome_map']
    exact hall j h2 hji
  have hcntp : 14 ≤ (rmaAux (1 / (14 : ℚ))
      (fun j => (diffCol (prevClCol df) j).map (fun d => max d 0)) i).2.2 := by
    have := rmaAux_count_ge (1 / (14 : ℚ)) (a := 2) i hposall
    omega
  have hcntn : 14 ≤ (rmaAux (1 / (14 : ℚ))
      (fun j => (diffCol (prevClCol df) j).map (fun d => min d 0)) i).2.2 := by
    have := rmaAux_count_ge (1 / (14 : ℚ)) (a := 2) i hnegall
    omega
  rw [rmaPT_eq hcntp, rmaPT_eq hcntn]
  have hal : (0 : ℚ) < 1 - 1 / 14 := by norm_num
  have hposnn : ∀ j v,
      (fun j => (diffCol (prevClCol df) j).map (fun d => max d 0)) j = some v →
        0 ≤ v := by
    intro j v hv
    have hv2 : Option.map (fun d => max d 0) (diffCol (prevClCol df) j)
        = some v := hv
    rcases hd : diffCol (prevClCol df) j with _ | d
    · rw [hd] at hv2
      cases hv2
    · rw [hd] at hv2
      simp only [Option.map_some'] at hv2
      injection hv2 with hv3
      rw [← hv3]
      exact le_max_right d 0
  have hd2 : diffCol (prevClCol df) 2 = some (df.cl 1 - df.cl 0) :=
    diffCol_prevCl_eq df le_rfl
  have hdenp : 0 < (rmaAux (1 / (14 : ℚ))
      (fun j => (diffCol (prevClCol df) j).map (fun d => max d 0)) i).2.1 :=
    rmaAux_den_pos hal _ i ⟨2, by omega, hposall 2 le_rfl (by omega)⟩
  have hdenn : 0 < (rmaAux (1 / (14 : ℚ))
      (fun j => (diffCol (prevClCol df) j).map (fun d => min d 0)) i).2.1 :=
    rmaAux_den_pos hal _ i ⟨2, by omega, hnegall 2 le_rfl (by omega)⟩
  have hnegrw : rmaAux (1 / (14 : ℚ))
      (fun j => (diffCol (prevClCol df) j).map (fun d => min d 0)) i
      = (-(rmaAux (1 / (14 : ℚ))
            (fun j => (diffCol (prevClCol df) j).map (fun d => max (-d) 0)) i).1,
          (rmaAux (1 / (14 : ℚ))
            (fun j => (diffCol (prevClCol df) j).map (fun d => max (-d) 0)) i).2.1,
          (rmaAux (1 / (14 : ℚ))
            (fun j => (diffCol (prevClCol df) j).map (fun d => max (-d) 0)) i).2.2) := by
    rw [← rmaAux_neg]
    apply rmaAux_congr
    intro j _
    show Option.map (fun d => min d 0) (diffCol (prevClCol df) j)
      = (Option.map (fun d => max (-d) 0) (diffCol (prevClCol df) j)).map
          Neg.neg
    rcases hd : diffCol (prevClCol df) j with _ | d
    · rfl
    · simp only [Option.map_some']
      rw [min_eq_neg_max]
  have hkey : 0 < (rmaAux (1 / (14 : ℚ))
        (fun j => (diffCol (prevClCol df) j).map (fun d => max d 0)) i).1 /
          (rmaAux (1 / (14 : ℚ))
            (fun j => (diffCol (prevClCol df) j).map (fun d => max d 0)) i).2.1 ∨
      (rmaAux (1 / (14 : ℚ))
        (fun j => (diffCol (prevClCol df) j).map (fun d => min d 0)) i).1 /
          (rmaAux (1 / (14 : ℚ))
            (fun j => (diffCol (prevClCol df) j).map (fun d => min d 0)) i).2.1
        < 0 := by
    rcases lt_or_gt_of_ne (sub_ne_zero.mpr hne) with hlt | hgt
    · right
      apply div_neg_of_neg_of_pos ?_ hdenn
      rw [hnegrw]
      show -(rmaAux (1 / (14 : ℚ))
        (fun j => (diffCol (prevClCol df) j).map (fun d => max (-d) 0)) i).1 < 0
      rw [neg_lt_zero]
      apply rmaAux_num_pos hal ?_ i
        ⟨2, -(df.cl 1 - df.cl 0), by omega, ?_, by linarith⟩
      · intro j v hv
        have hv2 : Option.map (fun d => max (-d) 0) (diffCol (prevClCol df) j)
            = some v := hv
        rcases hd : diffCol (prevClCol df) j with _ | d
        · rw [hd] at hv2
          cases hv2
        · rw [hd] at hv2
          simp only [Option.map_some'] at hv2
          injection hv2 with hv3
          rw [← hv3]
          exact le_max_right _ 0
      · show Option.map (fun d => max (-d) 0) (diffCol (prevClCol df) 2)
          = some (-(df.cl 1 - df.cl 0))
        rw [hd2]
        simp only [Option.map_some']
        rw [max_eq_left (by linarith : (0 : ℚ) ≤ -(df.cl 1 - df.cl 0))]
    · left
      apply div_pos ?_ hdenp
      apply rmaAux_num_pos hal hposnn i
        ⟨2, df.cl 1 - df.cl 0, by omega, ?_, by linarith⟩
      show Option.map (fun d => max d 0) (diffCol (prevClCol df) 2)
        = some (df.cl 1 - df.cl 0)
      rw [hd2]
      simp only [Option.map_some']
      rw [max_eq_left (by linarith : (0 : ℚ) ≤ df.cl 1 - df.cl 0)]
  have hpann : 0 ≤ (rmaAux (1 / (14 : ℚ))
      (fun j => (diffCol (prevClCol df) j).map (fun d => max d 0)) i).1 /
        (rmaAux (1 / (14 : ℚ))
          (fun j => (diffCol (prevClCol df) j).map (fun d => max d 0)) i).2.1 :=
    div_nonneg (rmaAux_num_nonneg (le_of_lt hal) hposnn i) (le_of_lt hdenp)
  show (fdivQ _ _).isSome = true
  apply fdivQ_isSome
  rcases hkey with h | h
  · have := abs_nonneg ((rmaAux (1 / (14 : ℚ))
      (fun j => (diffCol (prevClCol df) j).map (fun d => min d 0)) i).1 /
        (rmaAux (1 / (14 : ℚ))
          (fun j => (diffCol (prevClCol df) j).map (fun d => min d 0)) i).2.1)
    intro hcon
    linarith [abs_nonneg ((rmaAux (1 / (14 : ℚ))
      (fun j => (diffCol (prevClCol df) j).map (fun d => min d 0)) i).1 /
        (rmaAux (1 / (14 : ℚ))
          (fun j => (diffCol (prevClCol df) j).map (fun d => min d 0)) i).2.1)]
  · have habs : 0 < |(rmaAux (1 / (14 : ℚ))
      (fun j => (diffCol (prevClCol df) j).map (fun d => min d 0)) i).1 /
        (rmaAux (1 / (14 : ℚ))
          (fun j => (diffCol (prevClCol df) j).map (fun d => min d 0)) i).2.1| :=
      abs_pos.mpr (ne_of_lt h)
    intro hcon
    linarith

theorem max_cons_isSome (a : ℚ) (t : List (Option ℚ)) :
    ((List.filterMap id (some a :: t)).max?).isSome = true := by
  apply max?_isSome_of_ne_nil
  show a :: List.filterMap id t ≠ []
  exact List.cons_ne_nil _ _

theorem trueRange_shift_isSome (df : MergedBars) {j : ℕ} (hj : 1 ≤ j) :
    (trueRangeCol (shift1 df.hi) (shift1 df.lo) (shift1 df.cl) j).isSome
      = true := by
  rw [trueRangeCol, if_neg (by omega : ¬(j = 0)),
    shift1_isSome (by omega : j ≠ 0), shift1_isSome (by omega : j ≠ 0)]
  exact max_cons_isSome _ _

theorem atrNormCol_isSome (df : MergedBars) {i : ℕ} (hi : 14 ≤ i)
    (hcl : 0 < df.cl (i - 1)) : (atrNormCol df i).isSome = true := by
  have hcnt : 14 ≤ (rmaAux (1 / (14 : ℚ))
      (trueRangeCol (shift1 df.hi) (shift1 df.lo) (shift1 df.cl)) i).2.2 := by
    have := rmaAux_count_ge (1 / (14 : ℚ))
      (x := trueRangeCol (shift1 df.hi) (shift1 df.lo) (shift1 df.cl))
      (a := 1) i (fun j h1 _ => trueRange_shift_isSome df h1)
    omega
  rw [atrNormCol, atrCol14, rmaPT_eq hcnt, prevClCol_eq (by omega : i ≠ 0)]
  show (fdivQ _ (df.cl (i - 1))).isSome = true
  exact fdivQ_isSome (ne_of_gt hcl)

theorem sum_sq_nonneg (m : ℚ) (l : List ℚ) :
    0 ≤ (l.map (fun x => (x - m) ^ 2)).sum := by
  induction l with
  | nil => exact le_rfl
  | cons a t ih =>
    rw [List.map_cons, List.sum_cons]
    exact add_nonneg (sq_nonneg _) ih

theorem sum_sq_eq_zero (m : ℚ) (l : List ℚ)
    (h : (l.map (fun x => (x - m) ^ 2)).sum = 0) : ∀ x ∈ l, x = m := by
  induction l with
  | nil => intro x hx; cases hx
  | cons a t ih =>
    rw [List.map_cons, List.sum_cons] at h
    have h1 : (a - m) ^ 2 = 0 := by
      have := sum_sq_nonneg m t
      have := sq_nonneg (a - m)
      linarith
    have h2 : (t.map (fun x => (x - m) ^ 2)).sum = 0 := by
      have := sq_nonneg (a - m)
      have := sum_sq_nonneg m t
      linarith
    intro x hx
    rcases List.mem_cons.mp hx with rfl | hx2
    · have := pow_eq_zero_iff (n := 2) (by omega) |>.mp h1
      linarith [sub_eq_zero.mp this]
    · exact ih h2 x hx2

theorem listSVar_ne_zero {l : List ℚ} (hlen : 2 ≤ l.length) {x y : ℚ}
    (hx : x ∈ l) (hy : y ∈ l) (hxy : x ≠ y) : listSVar l ≠ 0 := by
  rw [listSVar]
  intro hcon
  have hden : ((l.length : ℚ) - 1) ≠ 0 := by
    have : (2 : ℚ) ≤ (l.length : ℚ) := by exact_mod_cast hlen
    intro h0
    rw [sub_eq_zero] at h0
    rw [h0] at this
    norm_num at this
  rcases div_eq_zero_iff.mp hcon with hs | hd
  · have h1 := sum_sq_eq_zero (listMean l) l hs x hx
    have h2 := sum_sq_eq_zero (listMean l) l hs y hy
    exact hxy (h1.trans h2.symm)
  · exact hden hd

theorem volumeZCol_isSome (ops : RealOps) (df : MergedBars) {i : ℕ}
    (h99 : 99 ≤ i) (hvol : df.vol (i - 99) ≠ df.vol (i - 98)) :
    (volumeZCol ops df i).isSome = true := by
  rw [volumeZCol, if_pos (by omega : 100 ≤ i + 1)]
  have hx : df.vol (i - 99)
      ∈ (List.range 100).map (fun j => df.vol (i + 1 - 100 + j)) := by
    apply List.mem_map.mpr
    refine ⟨0, by simp, ?_⟩
    rw [show i + 1 - 100 + 0 = i - 99 from by omega]
  have hy : df.vol (i - 98)
      ∈ (List.range 100).map (fun j => df.vol (i + 1 - 100 + j)) := by
    apply List.mem_map.mpr
    refine ⟨1, by simp, ?_⟩
    rw [show i + 1 - 100 + 1 = i - 98 from by omega]
  have hlen : ((List.range 100).map (fun j => df.vol (i + 1 - 100 + j))).length
      = 100 := by
    rw [List.length_map, List.length_range]
  have hne := listSVar_ne_zero (l :=
    (List.range 100).map (fun j => df.vol (i + 1 - 100 + j)))
    (by rw [hlen]; omega) hx hy hvol
  rw [if_neg hne]
  rfl

end Features

namespace Features

/-- `MACD_safe` is present from position 25 on. -/
theorem macdCol_isSome (df : MergedBars) {i : ℕ} (hi : 25 ≤ i) :
    (macdCol df i).isSome = true := by
  rw [macdCol]
  apply macdLine_isSome ?_ hi
  rw [prevClCol_eq (by omega : (1 : ℕ) ≠ 0)]
  rfl

/-- The first valid index of the MACD line over `prev_Close` is 25. -/
theorem firstValid_macd (df : MergedBars) (hn : 25 < df.n) :
    firstValid df.n (macdLine (prevClCol df)) = some 25 := by
  rw [firstValid]
  apply findRange_eq hn
  · intro j hj
    rw [macdLine_none hj]
    rfl
  · apply macdLine_isSome ?_ le_rfl
    rw [prevClCol_eq (by omega : (1 : ℕ) ≠ 0)]
    rfl

/-- `MACDh_safe` (the signal line) is present from position 33 on. -/
theorem macdHCol_isSome (df : MergedBars) {i : ℕ} (hn : 25 < df.n)
    (hi : 33 ≤ i) : (macdHCol df i).isSome = true := by
  rw [macdHCol, macdSignal, firstValid_macd df hn]
  show (if i < 25 then none
    else emaPT 9 (fun j => macdLine (prevClCol df) (25 + j)) (i - 25)).isSome
      = true
  rw [if_neg (by omega : ¬(i < 25))]
  apply emaPT_isSome (by omega) (by omega : 9 - 1 ≤ i - 25)
  refine ⟨0, by omega, ?_⟩
  show (macdLine (prevClCol df) (25 + 0)).isSome = true
  apply macdLine_isSome ?_ (by omega : 25 ≤ 25 + 0)
  rw [prevClCol_eq (by omega : (1 : ℕ) ≠ 0)]
  rfl

/-- `MACDs_safe` (the histogram) is present from position 33 on. -/
theorem macdSCol_isSome (df : MergedBars) {i : ℕ} (hn : 25 < df.n)
    (hi : 33 ≤ i) : (macdSCol df i).isSome = true := by
  rw [macdSCol, macdHist]
  exact osub_isSome (macdCol_isSome df (by omega)) (macdHCol_isSome df hn hi)

end Features

namespace Features

/-- The volume z-score column forces a 100-bar warm-up: presence implies
position at least 99. -/
theorem volumeZCol_isSome_imp {ops : RealOps} {df : MergedBars} {i : ℕ}
    (h : (volumeZCol ops df i).isSome = true) : 99 ≤ i := by
  by_contra hcon
  rw [volumeZCol, if_neg (by omega : ¬(100 ≤ i + 1))] at h
  cases h

/-- Under the validity conditions, every feature column is present at the
positions from 99 on. -/
theorem rowComplete_of_valid (ops : RealOps) (df : MergedBars)
    (hv : Valid120 df) {i : ℕ} (h99 : 99 ≤ i) (h120 : i < 120) :
    rowComplete ops df i = true := by
  obtain ⟨hn, hpos, hvol, hcl01, hoi, hoisome⟩ := hv
  have hlt : ∀ j, j ≤ i → j < 120 := by omega
  have hcl : ∀ j, j < 120 → 0 < df.cl j := fun j hj => (hpos j hj).2.2.2.1
  have hlogret : ∀ j, 1 ≤ j → j < 120 → (logRetCol ops df j).isSome = true := by
    intro j h1 hj
    rw [logRetCol, logReturnOf_eq ops (by omega) (hcl (j - 1) (by omega))
      (le_of_lt (hcl j hj))]
    rfl
  have h1 : (logRetCol ops df i).isSome = true := hlogret i (by omega) h120
  have h2 : (spLogRetCol ops df i).isSome = true := by
    rw [spLogRetCol, logReturnOf_eq ops (by omega)
      ((hpos (i - 1) (by omega)).2.2.2.2)
      (le_of_lt ((hpos i h120).2.2.2.2))]
    rfl
  have h3 : (priceRangeCol df i).isSome = true := by
    rw [priceRangeCol, if_neg (by omega : ¬(i = 0))]
    exact fdivQ_isSome (ne_of_gt (hcl (i - 1) (by omega)))
  have h4 : (priceChangeCol df i).isSome = true := by
    rw [priceChangeCol]
    exact fdivQ_isSome (ne_of_gt (hpos i h120).1)
  have h5 : (hiPrevCol df i).isSome = true := by
    rw [hiPrevCol, if_neg (by omega : ¬(i = 0))]
    exact fdivQ_isSome (ne_of_gt (hcl (i - 1) (by omega)))
  have h6 : (loPrevCol df i).isSome = true := by
    rw [loPrevCol, if_neg (by omega : ¬(i = 0))]
    exact fdivQ_isSome (ne_of_gt (hcl (i - 1) (by omega)))
  have hvola : ∀ w, 1 ≤ w → w ≤ 22 →
      (volatilityCol ops df w i).isSome = true := by
    intro w hw1 hw22
    rw [volatilityCol]
    rw [rollingAgg_isSome_iff]
    refine ⟨by omega, windowAt_all_isSome ?_ (by omega)⟩
    intro j hj1 hj2
    exact hlogret j (by omega) (by omega)
  have hvolma : ∀ w, 1 ≤ w → w ≤ 22 → (volumeMaCol df w i).isSome = true := by
    intro w hw1 hw22
    rw [volumeMaCol, rollingAgg_isSome_iff]
    exact ⟨by omega, windowAt_all_isSome (fun j _ _ => rfl) (by omega)⟩
  have h13 : (volumeZCol ops df i).isSome = true := by
    apply volumeZCol_isSome ops df h99
    have := hvol (i - 99) (by omega)
    rw [show i - 99 + 1 = i - 98 from by omega] at this
    exact this
  have h14m : (macdCol df i).isSome = true := macdCol_isSome df (by omega)
  have h14s : (macdSCol df i).isSome = true :=
    macdSCol_isSome df (by omega) (by omega)
  have h14h : (macdHCol df i).isSome = true :=
    macdHCol_isSome df (by omega) (by omega)
  have h15 : (rsiCol df i).isSome = true :=
    rsiCol_isSome df (by omega) (fun hc => hcl01 hc.symm)
  have h16 : (atrNormCol df i).isSome = true :=
    atrNormCol_isSome df (by omega) (hcl (i - 1) (by omega))
  have h17 : (df.oi i).isSome = true := hoisome i h120
  rw [rowComplete]
  simp [h1, h2, h3, h4, h5, h6, hvola 5 (by omega) (by omega),
    hvola 14 (by omega) (by omega), hvola 21 (by omega) (by omega),
    hvolma 5 (by omega) (by omega), hvolma 14 (by omega) (by omega),
    hvolma 21 (by omega) (by omega), h13, h14m, h14s, h14h, h15, h16, h17]

/-- Before position 99 the volume z-score is NaN, so the row is dropped. -/
theorem rowComplete_false_of_lt (ops : RealOps) (df : MergedBars) {i : ℕ}
    (h : i < 99) : rowComplete ops df i = false := by
  have hz : (volumeZCol ops df i).isSome = false := by
    rw [volumeZCol, if_neg (by omega : ¬(100 ≤ i + 1))]
    rfl
  rw [rowComplete]
  simp [hz]

end Features

/-- The concrete 120-bar frame satisfies the validity conditions. -/
theorem exampleDf_valid : Valid120 exampleDf := by
  refine ⟨rfl, ?_, ?_, ?_, rfl, fun i _ => rfl⟩
  · intro i _
    refine ⟨?_, ?_, ?_, ?_, ?_⟩
    · show (0 : ℚ) < 1
      norm_num
    · show (0 : ℚ) < 2
      norm_num
    · show (0 : ℚ) < 1
      norm_num
    · show (0 : ℚ) < 1 + ((i % 2 : ℕ) : ℚ) / 20
      positivity
    · show (0 : ℚ) < 5
      norm_num
  · intro i _
    show (1 : ℚ) + ((i % 2 : ℕ) : ℚ) ≠ 1 + (((i + 1) % 2 : ℕ) : ℚ)
    rcases Nat.mod_two_eq_zero_or_one i with h | h
    · have h2 : (i + 1) % 2 = 1 := by omega
      rw [h, h2]
      norm_num
    · have h2 : (i + 1) % 2 = 0 := by omega
      rw [h, h2]
      norm_num
  · show (1 : ℚ) + ((0 % 2 : ℕ) : ℚ) / 20 ≠ 1 + ((1 % 2 : ℕ) : ℚ) / 20
    norm_num

/-- C9: on a valid merged frame of 120 consecutive bars the feature
transform keeps exactly the positions 99..119 (the 100-bar volume z-score
warm-up drops the first 99 rows), returns 21 feature rows, the first
retained row is the one built from position 99, and its log_return equals
lg(close 99 / close 98). -/
theorem C9_end_to_end (ops : RealOps) (df : MergedBars) (hv : Valid120 df) :
    (List.range df.n).filter (fun i => Features.rowComplete ops df i)
        = (List.range 21).map (fun j => 99 + j) ∧
    (createAdvancedFeatures ops df).length = 21 ∧
    (createAdvancedFeatures ops df).head?
        = some (Features.mkRow ops df 99) ∧
    (Features.mkRow ops df 99).ts = df.ts 99 ∧
    (Features.mkRow ops df 99).logRet
        = some (ops.lg (df.cl 99 / df.cl 98)) := by
  have hn := hv.1
  have hcongr : ∀ i ∈ List.range 120,
      Features.rowComplete ops df i = decide (99 ≤ i) := by
    intro i hi
    have hi120 : i < 120 := List.mem_range.mp hi
    by_cases h : 99 ≤ i
    · rw [Features.rowComplete_of_valid ops df hv h hi120]
      exact (decide_eq_true h).symm
    · rw [Features.rowComplete_false_of_lt ops df (by omega)]
      exact (decide_eq_false h).symm
  have hfil : (List.range df.n).filter
      (fun i => Features.rowComplete ops df i)
      = (List.range 21).map (fun j => 99 + j) := by
    rw [hn, List.filter_congr hcongr]
    decide
  have hout : createAdvancedFeatures ops df
      = ((List.range 21).map (fun j => 99 + j)).map
          (Features.mkRow ops df) := by
    rw [createAdvancedFeatures, hfil]
  have hpos := hv.2.1
  refine ⟨hfil, ?_, ?_, rfl, ?_⟩
  · rw [hout, List.length_map, List.length_map, List.length_range]
  · rw [hout,
      show (List.range 21).map (fun j => 99 + j)
        = 99 :: (List.range 20).map (fun j => 100 + j) from by decide]
    rfl
  · show Features.logRetCol ops df 99
        = some (ops.lg (df.cl 99 / df.cl 98))
    rw [Features.logRetCol,
      Features.logReturnOf_eq ops (by omega : (99 : ℕ) ≠ 0)
        ((hpos 98 (by omega)).2.2.2.1)
        (le_of_lt (hpos 99 (by omega)).2.2.2.1)]

/-- C9 instantiated on the concrete valid frame: it produces exactly 21
rows and the first one is the row built from position 99. -/
theorem C9_end_to_end_witness :
    Valid120 exampleDf ∧
    (createAdvancedFeatures idOps exampleDf).length = 21 ∧
    (createAdvancedFeatures idOps exampleDf).head?
      = some (Features.mkRow idOps exampleDf 99) :=
  ⟨exampleDf_valid, (C9_end_to_end idOps exampleDf exampleDf_valid).2.1,
    (C9_end_to_end idOps exampleDf exampleDf_valid).2.2.1⟩

/-- C4: every feature row surviving the dropna is built from a position at
least 99; each of its shift-derived columns is resolved, each rolling
column equals the aggregation of a full window of exactly its configured
size with every entry resolved, and each guarded indicator column is
resolved whenever its indicator was computed at all. -/
theorem C4_dropna_invariant (ops : RealOps) (df : MergedBars) :
    ∀ r ∈ createAdvancedFeatures ops df, ∃ i, i < df.n ∧
      r = Features.mkRow ops df i ∧ 100 ≤ i + 1 ∧
      r.logRet.isSome = true ∧ r.spLogRet.isSome = true ∧
      r.priceRange.isSome = true ∧ r.priceChange.isSome = true ∧
      r.hiPrev.isSome = true ∧ r.loPrev.isSome = true ∧
      (∀ w, w = 5 ∨ w = 14 ∨ w = 21 → w ≤ i + 1 ∧
        (Features.windowAt (Features.logRetCol ops df) i w).length = w ∧
        (Features.windowAt (Features.logRetCol ops df) i w).all
            Option.isSome = true ∧
        Features.volatilityCol ops df w i
          = some (ops.sqrtQ (listSVar ((Features.windowAt
              (Features.logRetCol ops df) i w).filterMap id))) ∧
        Features.volumeMaCol df w i
          = some (listMean ((Features.windowAt
              (fun j => some (df.vol j)) i w).filterMap id))) ∧
      r.volZ.isSome = true ∧
      (Features.hasMACD df = true → r.macd.isSome = true ∧
        r.macdS.isSome = true ∧ r.macdH.isSome = true) ∧
      (Features.hasRSI df = true → r.rsi.isSome = true) ∧
      (Features.hasATR df = true → r.atrN.isSome = true) ∧
      (df.hasOI = true → r.oi.isSome = true) := by
  intro r hr
  rw [createAdvancedFeatures, List.mem_map] at hr
  obtain ⟨i, hif, hri⟩ := hr
  rw [List.mem_filter, List.mem_range] at hif
  obtain ⟨hin, hc0⟩ := hif
  subst hri
  have hc : Features.rowComplete ops df i = true := hc0
  rw [Features.rowComplete] at hc
  simp only [Bool.and_eq_true, Bool.or_eq_true, Bool.not_eq_true'] at hc
  obtain ⟨⟨⟨⟨⟨⟨⟨⟨⟨⟨⟨⟨⟨⟨⟨⟨h1, h2⟩, h3⟩, h4⟩, h5⟩, h6⟩, h7⟩, h8⟩, h9⟩,
    h10⟩, h11⟩, h12⟩, h13⟩, h14⟩, h15⟩, h16⟩, h17⟩ := hc
  have h99 : 99 ≤ i := Features.volumeZCol_isSome_imp h13
  refine ⟨i, hin, rfl, by omega, h1, h2, h3, h4, h5, h6, ?_, h13,
    ?_, ?_, ?_, ?_⟩
  · intro w hw
    have hvola : (Features.volatilityCol ops df w i).isSome = true := by
      rcases hw with rfl | rfl | rfl
      exacts [h7, h8, h9]
    have hvma : (Features.volumeMaCol df w i).isSome = true := by
      rcases hw with rfl | rfl | rfl
      exacts [h10, h11, h12]
    rw [Features.volatilityCol] at hvola
    obtain ⟨hwle, hall⟩ := Features.rollingAgg_isSome_iff.mp hvola
    rw [Features.volumeMaCol] at hvma
    obtain ⟨hwle2, hall2⟩ := Features.rollingAgg_isSome_iff.mp hvma
    refine ⟨hwle, Features.windowAt_length _ _ _, hall, ?_, ?_⟩
    · rw [Features.volatilityCol]
      exact Features.rollingAgg_eq hwle hall
    · rw [Features.volumeMaCol]
      exact Features.rollingAgg_eq hwle2 hall2
  · intro hm
    rcases h14 with hf | hsome
    · simp [hf] at hm
    · obtain ⟨⟨hma, hms⟩, hmh⟩ := hsome
      refine ⟨?_, ?_, ?_⟩
      · show (if Features.hasMACD df = true then Features.macdCol df i
            else none).isSome = true
        rw [if_pos hm]
        exact hma
      · show (if Features.hasMACD df = true then Features.macdSCol df i
            else none).isSome = true
        rw [if_pos hm]
        exact hms
      · show (if Features.hasMACD df = true then Features.macdHCol df i
            else none).isSome = true
        rw [if_pos hm]
        exact hmh
  · intro hm
    rcases h15 with hf | hsome
    · simp [hf] at hm
    · show (if Features.hasRSI df = true then Features.rsiCol df i
          else none).isSome = true
      rw [if_pos hm]
      exact hsome
  · intro hm
    rcases h16 with hf | hsome
    · simp [hf] at hm
    · show (if Features.hasATR df = true then Features.atrNormCol df i
          else none).isSome = true
      rw [if_pos hm]
      exact hsome
  · intro hm
    rcases h17 with hf | hsome
    · simp [hf] at hm
    · show (if df.hasOI = true then df.oi i else none).isSome = true
      rw [if_pos hm]
      exact hsome

/-- The row built from position 99 of the concrete valid frame is in the
transform's output. -/
theorem exampleDf_mem_output :
    Features.mkRow idOps exampleDf 99
      ∈ createAdvancedFeatures idOps exampleDf := by
  rw [createAdvancedFeatures]
  apply List.mem_map_of_mem
  rw [List.mem_filter]
  refine ⟨by decide, ?_⟩
  show Features.rowComplete idOps exampleDf 99 = true
  exact Features.rowComplete_of_valid idOps exampleDf exampleDf_valid
    (by omega) (by omega)

/-- C4 instantiated on the concrete valid frame at position 99: the
surviving row has its log-return, volume z-score and 21-bar volatility
window fully resolved. -/
theorem C4_dropna_invariant_witness :
    (Features.mkRow idOps exampleDf 99).logRet.isSome = true ∧
    (Features.mkRow idOps exampleDf 99).volZ.isSome = true ∧
    (Features.windowAt (Features.logRetCol idOps exampleDf) 99 21).all
        Option.isSome = true := by
  obtain ⟨i, hi, hreq, h100, hlog, _, _, _, _, _, hwin, hvolZ, _⟩ :=
    C4_dropna_invariant idOps exampleDf
      (Features.mkRow idOps exampleDf 99) exampleDf_mem_output
  refine ⟨hlog, hvolZ, ?_⟩
  have h99 : i = 99 := by
    have h := congrArg FeatureRow.ts hreq
    simp only [Features.mkRow, exampleDf] at h
    omega
  rw [show (99 : ℕ) = i from h99.symm]
  exact (hwin 21 (by omega)).2.2.1
